import Mathlib

/-!
# Ventures: the blockchain client layer

A shallow embedding of `src/services/blockchain.jsx` (wallet session, contract gateway and
data normalizers) together with the pieces of the host it relies on: ECMAScript numbers
(IEEE-754 binary64 with round-to-nearest, ties-to-even), the `Date` calendar, and the
`ethers` v5 helpers `BigNumber.toNumber` and `utils.parseEther`.

Conventions.
* A finite ECMAScript number is held as the rational it denotes; the sign of zero is not
  tracked.
* An `ethers` `BigNumber` is held as the integer it denotes; its `_hex` field is the
  hexadecimal spelling of that integer.
* Asynchronous functions are run sequentially: every `await` is resolved by the environment
  before the next statement runs.  The observable effects are appended to a trace.
-/

namespace Ventures

/-! ## ECMAScript numbers -/

/-- An ECMAScript Number: a finite binary64 value (as a rational), an infinity, or NaN. -/
inductive JSNumber where
  | fin (q : ℚ)
  | posInf
  | negInf
  | nan
deriving DecidableEq

/-- Nearest integer, a tie going to the even neighbour. -/
def roundHalfEven (q : ℚ) : ℤ :=
  let f := ⌊q⌋
  if q - f < 1 / 2 then f
  else if 1 / 2 < q - f then f + 1
  else if f % 2 = 0 then f
  else f + 1

/-- Spacing of binary64 values around a positive rational `q`: `2 ^ (e - 52)` where
`2 ^ e ≤ q < 2 ^ (e + 1)`, the exponent being clamped at `-1022` (subnormal range). -/
def ulp (q : ℚ) : ℚ :=
  (2 : ℚ) ^ (max (Int.log 2 q) (-1022) - 52)

/-- IEEE-754 roundTiesToEven of a positive rational into binary64; a result that reaches
`2 ^ 1024` overflows to `+∞`. -/
def roundPos (q : ℚ) : JSNumber :=
  let r : ℚ := (roundHalfEven (q / ulp q) : ℚ) * ulp q
  if r < (2 : ℚ) ^ (1024 : ℕ) then .fin r else .posInf

/-- Unary minus on numbers. -/
def JSNumber.neg : JSNumber → JSNumber
  | .fin q => .fin (-q)
  | .posInf => .negInf
  | .negInf => .posInf
  | .nan => .nan

/-- The Number nearest to a rational (the ECMAScript operation `𝔽(x)`). -/
def roundDouble (q : ℚ) : JSNumber :=
  if q = 0 then .fin 0
  else if 0 < q then roundPos q
  else (roundPos (-q)).neg

/-- The ECMAScript `/` operator on Numbers. -/
def JSNumber.div : JSNumber → JSNumber → JSNumber
  | .nan, _ => .nan
  | _, .nan => .nan
  | .fin a, .fin b =>
      if b = 0 then (if a = 0 then .nan else if 0 < a then .posInf else .negInf)
      else roundDouble (a / b)
  | .fin _, .posInf => .fin 0
  | .fin _, .negInf => .fin 0
  | .posInf, .fin b => if 0 ≤ b then .posInf else .negInf
  | .negInf, .fin b => if 0 ≤ b then .negInf else .posInf
  | .posInf, .posInf => .nan
  | .posInf, .negInf => .nan
  | .negInf, .posInf => .nan
  | .negInf, .negInf => .nan

/-- The ECMAScript `*` operator on Numbers. -/
def JSNumber.mul : JSNumber → JSNumber → JSNumber
  | .nan, _ => .nan
  | _, .nan => .nan
  | .fin a, .fin b => roundDouble (a * b)
  | .fin a, .posInf => if a = 0 then .nan else if 0 < a then .posInf else .negInf
  | .fin a, .negInf => if a = 0 then .nan else if 0 < a then .negInf else .posInf
  | .posInf, .fin b => if b = 0 then .nan else if 0 < b then .posInf else .negInf
  | .negInf, .fin b => if b = 0 then .nan else if 0 < b then .negInf else .posInf
  | .posInf, .posInf => .posInf
  | .posInf, .negInf => .negInf
  | .negInf, .posInf => .negInf
  | .negInf, .negInf => .posInf

/-- Value of `parseInt(x._hex)` for a `BigNumber` `x` denoting the natural number `n`: the
string is `0x` followed by the hexadecimal digits of `n`, so `parseInt` reads radix 16,
obtains the exact integer and returns the Number nearest to it. -/
def parseIntHex (n : ℕ) : JSNumber :=
  roundDouble (n : ℚ)

/-- The constant `10 ** 18`, which is exactly representable. -/
def tenPow18 : JSNumber := .fin ((10 : ℚ) ^ (18 : ℕ))

/-- The expression `parseInt(x._hex) / 10 ** 18` used for every monetary field. -/
def weiToEther (n : ℕ) : JSNumber :=
  (parseIntHex n).div tenPow18

/-! ## Errors -/

/-- Values thrown by the program or by the libraries it calls. -/
inductive JSError where
  /-- `new Error(message)` -/
  | error (message : String)
  /-- a `TypeError` raised by the runtime -/
  | typeError (message : String)
  /-- an error raised by the `ethers` logger, with its `code` and `reason` -/
  | ethers (code : String) (reason : String)
  /-- a rejection coming from the wallet provider or the ledger -/
  | external (tag : ℕ)
deriving DecidableEq

/-- The `name` property of a thrown value; rejections produced by the provider are plain
objects whose name is not fixed by the program. -/
def JSError.name : JSError → Option String
  | .error _ => some "Error"
  | .typeError _ => some "TypeError"
  | .ethers _ _ => some "Error"
  | .external _ => none

/-! ## `ethers` BigNumber helpers -/

/-- `BigNumber.prototype.toNumber` (ethers v5): the value as a Number, throwing a
`NUMERIC_FAULT` overflow when it needs more than 53 bits. -/
def toNumber (n : ℕ) : Except JSError ℕ :=
  if n < 2 ^ 53 then .ok n else .error (.ethers "NUMERIC_FAULT" "overflow")

/-! ## Strings -/

/-- `String.prototype.toLowerCase` on the ASCII range (ledger addresses are hexadecimal). -/
def toLowerCase (s : String) : String :=
  ⟨s.data.map Char.toLower⟩

/-! ## Dates -/

/-- `TimeClip(ToNumber(x))`: the time value held by `new Date(x)`; `none` is the invalid date. -/
def timeClip : JSNumber → Option ℤ
  | .fin q =>
      if |q| ≤ 8640000000000000 then some (if 0 ≤ q then ⌊q⌋ else ⌈q⌉) else none
  | _ => none

/-- `Date.prototype.getTime`. -/
def getTime (date : Option ℤ) : JSNumber :=
  match date with
  | some t => .fin (t : ℚ)
  | none => .nan

/-- Proleptic Gregorian date `(year, month, day)` of a day number counted from 1970-01-01;
`month` is in `1..12`. -/
def civil (days : ℤ) : ℤ × ℤ × ℤ :=
  let z := days + 719468
  let era := z / 146097
  let doe := z - era * 146097
  let yoe := (doe - doe / 1460 + doe / 36524 - doe / 146096) / 365
  let doy := doe - (365 * yoe + yoe / 4 - yoe / 100)
  let mp := (5 * doy + 2) / 153
  let d := doy - (153 * mp + 2) / 5 + 1
  let m := if mp < 10 then mp + 3 else mp - 9
  let y := yoe + era * 400
  (if m ≤ 2 then y + 1 else y, m, d)

/-- Local time value: the host adds its offset `tz t` (milliseconds) to the UTC instant `t`. -/
def localTime (tz : ℤ → ℤ) (t : ℤ) : ℤ := t + tz t

/-- `Date.prototype.getFullYear`; `none` stands for NaN. -/
def getFullYear (tz : ℤ → ℤ) (date : Option ℤ) : Option ℤ :=
  date.map fun t => (civil (localTime tz t / 86400000)).1

/-- `Date.prototype.getMonth` (January is 0); `none` stands for NaN. -/
def getMonth (tz : ℤ → ℤ) (date : Option ℤ) : Option ℤ :=
  date.map fun t => (civil (localTime tz t / 86400000)).2.1 - 1

/-- `Date.prototype.getDate`; `none` stands for NaN. -/
def getDate (tz : ℤ → ℤ) (date : Option ℤ) : Option ℤ :=
  date.map fun t => (civil (localTime tz t / 86400000)).2.2

/-- Number-to-string conversion for a calendar component (an integer of small magnitude, or
NaN). -/
def showNumber : Option ℤ → String
  | none => "NaN"
  | some n => if n < 0 then "-" ++ Nat.repr n.natAbs else Nat.repr n.natAbs

/-- The comparison `x > 9`, false on NaN. -/
def gtNine : Option ℤ → Bool
  | none => false
  | some n => decide (9 < n)

/-- The source's `toDate`:
```
const date = new Date(timestamp)
const dd = date.getDate() > 9 ? date.getDate() : `0${date.getDate()}`
const mm = date.getMonth() + 1 > 9 ? date.getMonth() + 1 : `0${date.getMonth() + 1}`
const yyyy = date.getFullYear()
return `${yyyy}-${mm}-${dd}`
``` -/
def toDate (tz : ℤ → ℤ) (timestamp : JSNumber) : String :=
  let date := timeClip timestamp
  let dd :=
    if gtNine (getDate tz date) then showNumber (getDate tz date)
    else "0" ++ showNumber (getDate tz date)
  let month := (getMonth tz date).map (· + 1)
  let mm := if gtNine month then showNumber month else "0" ++ showNumber month
  let yyyy := showNumber (getFullYear tz date)
  yyyy ++ "-" ++ mm ++ "-" ++ dd

/-- Decimal digits of `n`, left-padded with zeros to at least `width` characters. -/
def padZero (width n : ℕ) : String :=
  let s := Nat.repr n
  ⟨List.replicate (width - s.length) '0'⟩ ++ s

/-- `Date.prototype.toJSON`: the ISO-8601 UTC spelling `YYYY-MM-DDTHH:mm:ss.sssZ` (years
outside `0..9999` use the signed six-digit form), or `null` (`none`) for the invalid date. -/
def toJSON (date : Option ℤ) : Option String :=
  date.map fun t =>
    let c := civil (t / 86400000)
    let msInDay := t % 86400000
    let year :=
      if 0 ≤ c.1 ∧ c.1 ≤ 9999 then padZero 4 c.1.natAbs
      else (if c.1 < 0 then "-" else "+") ++ padZero 6 c.1.natAbs
    year ++ "-" ++ padZero 2 c.2.1.natAbs ++ "-" ++ padZero 2 c.2.2.natAbs ++ "T"
      ++ padZero 2 (msInDay / 3600000).natAbs ++ ":"
      ++ padZero 2 (msInDay / 60000 % 60).natAbs ++ ":"
      ++ padZero 2 (msInDay / 1000 % 60).natAbs ++ "."
      ++ padZero 3 (msInDay % 1000).natAbs ++ "Z"

/-! ## Raw ledger records and the normalizers -/

/-- A backer as returned by `contract.getBackers`. -/
structure RawBacker where
  owner : String
  refunded : Bool
  timestamp : ℕ
  contribution : ℕ
deriving DecidableEq

/-- A backer as stored under the `backers` key. -/
structure Backer where
  owner : String
  refunded : Bool
  timestamp : Option String
  contribution : JSNumber
deriving DecidableEq

/-- A project as returned by `contract.getProjects` / `contract.getProject`. -/
structure RawProject where
  id : ℕ
  owner : String
  title : String
  description : String
  timestamp : ℕ
  expiresAt : ℕ
  imageURL : String
  raised : ℕ
  cost : ℕ
  backers : ℕ
  status : ℕ
deriving DecidableEq

/-- A project as stored under the `projects` / `project` keys. -/
structure Project where
  id : ℕ
  owner : String
  title : String
  description : String
  timestamp : JSNumber
  expiresAt : JSNumber
  date : String
  imageURL : String
  raised : JSNumber
  cost : JSNumber
  backers : ℕ
  status : ℕ
deriving DecidableEq

/-- The aggregate returned by `contract.stats`. -/
structure RawStats where
  totalProjects : ℕ
  totalBacking : ℕ
  totalDonations : ℕ
deriving DecidableEq

/-- The aggregate stored under the `stats` key. -/
structure Stats where
  totalProjects : ℕ
  totalBacking : ℕ
  totalDonations : JSNumber
deriving DecidableEq

/-- `Array.prototype.map` with a callback that may throw: the callback is applied to the
elements in order and the first exception aborts the traversal. -/
def arrayMap {α β : Type} (f : α → Except JSError β) : List α → Except JSError (List β)
  | [] => .ok []
  | a :: rest =>
      match f a with
      | .error e => .error e
      | .ok b =>
          match arrayMap f rest with
          | .error e => .error e
          | .ok bs => .ok (b :: bs)

/-- The arrow function mapped over the backers by `structuredBackers`. -/
def normalizeBacker (backer : RawBacker) : Except JSError Backer := do
  let seconds ← toNumber backer.timestamp
  pure
    { owner := toLowerCase backer.owner
      refunded := backer.refunded
      timestamp := toJSON (timeClip ((JSNumber.fin seconds).mul (.fin 1000)))
      contribution := weiToEther backer.contribution }

/-- The source's `structuredBackers`: `backers.map(...).reverse()`. -/
def structuredBackers (backers : List RawBacker) : Except JSError (List Backer) := do
  let mapped ← arrayMap normalizeBacker backers
  pure mapped.reverse

/-- The arrow function mapped over the projects by `structuredProjects`. -/
def normalizeProject (tz : ℤ → ℤ) (project : RawProject) : Except JSError Project := do
  let id ← toNumber project.id
  let timestamp ← toNumber project.timestamp
  let expiresAt ← toNumber project.expiresAt
  let expiresAt2 ← toNumber project.expiresAt
  let backers ← toNumber project.backers
  pure
    { id := id
      owner := toLowerCase project.owner
      title := project.title
      description := project.description
      timestamp := getTime (timeClip (.fin timestamp))
      expiresAt := getTime (timeClip (.fin expiresAt))
      date := toDate tz ((JSNumber.fin expiresAt2).mul (.fin 1000))
      imageURL := project.imageURL
      raised := weiToEther project.raised
      cost := weiToEther project.cost
      backers := backers
      status := project.status }

/-- The source's `structuredProjects`: `projects.map(...).reverse()`. -/
def structuredProjects (tz : ℤ → ℤ) (projects : List RawProject) :
    Except JSError (List Project) := do
  let mapped ← arrayMap (normalizeProject tz) projects
  pure mapped.reverse

/-- The source's `structureStats`. -/
def structureStats (stats : RawStats) : Except JSError Stats := do
  let totalProjects ← toNumber stats.totalProjects
  let totalBacking ← toNumber stats.totalBacking
  pure
    { totalProjects := totalProjects
      totalBacking := totalBacking
      totalDonations := weiToEther stats.totalDonations }

/-! ## Object view of a normalized project -/

/-- The ECMAScript values that occur as properties of a normalized project. -/
inductive JSValue where
  | undefined
  | number (x : JSNumber)
  | string (s : String)
deriving DecidableEq

/-- Property lookup `project[key]` on the object literal built by `structuredProjects`; a key
the literal does not define reads as `undefined`. -/
def Project.get (p : Project) (key : String) : JSValue :=
  if key = "id" then .number (.fin p.id)
  else if key = "owner" then .string p.owner
  else if key = "title" then .string p.title
  else if key = "description" then .string p.description
  else if key = "timestamp" then .number p.timestamp
  else if key = "expiresAt" then .number p.expiresAt
  else if key = "date" then .string p.date
  else if key = "imageURL" then .string p.imageURL
  else if key = "raised" then .number p.raised
  else if key = "cost" then .number p.cost
  else if key = "backers" then .number (.fin p.backers)
  else if key = "status" then .number (.fin p.status)
  else .undefined

/-- The status badge rendered by `ProjectCard` (src/components/Projects.jsx):
```
expired ? 'Expired' : project?.status == 0 ? 'Open' : project?.status == 1 ? 'Accepted'
  : project?.status == 2 ? 'Reverted' : project?.status == 3 ? 'Deleted' : 'Paid'
``` -/
def statusLabel (expired : Bool) (status : ℕ) : String :=
  if expired then "Expired"
  else if status = 0 then "Open"
  else if status = 1 then "Accepted"
  else if status = 2 then "Reverted"
  else if status = 3 then "Deleted"
  else "Paid"

/-! ## `ethers.utils.parseEther` -/

/-- The test `value.match(/^-?[0-9.]+$/)`. -/
def matchesDecimal (cs : List Char) : Bool :=
  let body := if cs.head? = some '-' then cs.tail else cs
  !body.isEmpty && body.all fun c => c.isDigit || c == '.'

/-- The pieces of `value.split(".")`. -/
def splitDot : List Char → List (List Char)
  | [] => [[]]
  | c :: cs =>
      match splitDot cs with
      | [] => [[]]
      | piece :: pieces => if c = '.' then [] :: piece :: pieces else (c :: piece) :: pieces

/-- The natural number spelled by a string of decimal digits (`BigNumber.from`). -/
def digitsValue (ds : List Char) : ℕ :=
  ds.foldl (fun acc c => 10 * acc + (c.toNat - 48)) 0

/-- The loop `while (fraction[fraction.length - 1] === "0") fraction = fraction.substring(...)`. -/
def dropTrailingZeros (ds : List Char) : List Char :=
  (ds.reverse.dropWhile fun c => c == '0').reverse

/-- Tail of `parseFixed` once the text is split into its whole and fractional digits. -/
def assembleWei (negative : Bool) (whole fraction : List Char) : Except JSError ℤ :=
  let whole := if whole.isEmpty then ['0'] else whole
  let fraction := if fraction.isEmpty then ['0'] else fraction
  let fraction := dropTrailingZeros fraction
  if 18 < fraction.length then .error (.ethers "NUMERIC_FAULT" "fractional component exceeds decimals")
  else
    let fraction := if fraction.isEmpty then ['0'] else fraction
    let fraction := fraction ++ List.replicate (18 - fraction.length) '0'
    let wei : ℤ := (digitsValue whole : ℤ) * 10 ^ 18 + (digitsValue fraction : ℤ)
    .ok (if negative then wei * -1 else wei)

/-- `ethers.utils.parseEther(value)` (ethers v5, `parseFixed(value, 18)`) on a string: the
fixed-point integer `value * 10 ^ 18`, or an `INVALID_ARGUMENT` / `NUMERIC_FAULT` error. -/
def parseEther (value : String) : Except JSError ℤ :=
  let cs := value.data
  if !matchesDecimal cs then .error (.ethers "INVALID_ARGUMENT" "invalid decimal value")
  else
    let negative := decide (cs.head? = some '-')
    let cs := if negative then cs.tail else cs
    if cs = ['.'] then .error (.ethers "INVALID_ARGUMENT" "missing value")
    else
      match splitDot cs with
      | [whole] => assembleWei negative whole []
      | [whole, fraction] => assembleWei negative whole fraction
      | _ => .error (.ethers "INVALID_ARGUMENT" "too many decimal points")

/-! ## Wallet, ledger and session state -/

/-- The transaction response a write call on the contract resolves to. -/
structure Tx where
  hash : ℕ
deriving DecidableEq

/-- A contract handle: either the object built by
`new ethers.Contract(contractAddress, contractAbi, signer)` or whatever value is held under
the `contract` key of the store. -/
inductive Handle where
  | signer
  | cached (tag : ℕ)
deriving DecidableEq

/-- A state-changing call on the contract, with its arguments. -/
inductive ContractCall where
  | createProject (title description imageURL : String) (cost : ℤ) (expiresAt : JSNumber)
  | updateProject (id : ℕ) (title description imageURL : String) (expiresAt : JSNumber)
  | deleteProject (id : ℕ)
  | backProject (id : ℕ) (sender : Option String) (value : ℤ)
  | payOutProject (id : ℕ) (sender : Option String)
deriving DecidableEq

/-- A read-only call on the contract. -/
inductive ReadCall where
  | getProjects
  | stats
  | getProject (id : ℕ)
  | getBackers (id : ℕ)
deriving DecidableEq

/-- The observable effects of the client, in the order they happen. -/
inductive Event where
  /-- `alert(message)` -/
  | alert (message : String)
  /-- `alert(JSON.stringify(error.message))` -/
  | alertError (error : JSError)
  /-- `console.log(message)` for a literal message -/
  | log (message : String)
  /-- `console.log(error.message)` -/
  | logError (error : JSError)
  /-- `ethereum.request` with the given `method` -/
  | request (method : String)
  /-- `new ethers.providers.Web3Provider(ethereum)`, `getSigner()`, `new ethers.Contract(...)` -/
  | build
  /-- a state-changing contract method is invoked on a handle -/
  | submit (handle : Handle) (call : ContractCall)
  /-- `tx.wait()` is awaited -/
  | wait (tx : Tx)
  /-- a read-only contract method is invoked on a handle -/
  | read (handle : Handle) (call : ReadCall)
  /-- `window.location.reload()` -/
  | reload
deriving DecidableEq

/-- A handler registered with `window.ethereum.on`.  The `accountsChanged` handler is a closure
over the `accounts` array of the `isWallectConnected` run that registered it. -/
inductive Listener where
  | chainChanged
  | accountsChanged (accounts : List String)
deriving DecidableEq

/-- Modelled from the spec: the `../store` module (`getGlobalState`, `setGlobalState`) is not
among the sources.  Section 4.5 describes a process-wide key/value store, empty at start, in
which an entry exists once it has been set; the keys are the ones the service reads and
writes, and `none` is an absent (`undefined`) entry. -/
structure Store where
  connectedAccount : Option String
  contract : Option Handle
  projects : Option (List Project)
  project : Option Project
  backers : Option (List Backer)
  stats : Option Stats
deriving DecidableEq

/-- The store at process start. -/
def Store.empty : Store :=
  { connectedAccount := none, contract := none, projects := none, project := none,
    backers := none, stats := none }

/-- The mutable state of the page: the store, the module variable `tx`, the handlers registered
on the provider, and the effects observed so far. -/
structure World where
  store : Store
  tx : Option Tx
  listeners : List Listener
  trace : List Event
deriving DecidableEq

/-- The page right after load. -/
def World.initial : World :=
  { store := Store.empty, tx := none, listeners := [], trace := [] }

/-- What the outside answers: whether `window.ethereum` exists, what the wallet returns for the
two account requests, how the ledger answers each contract call, and the host time zone. -/
structure Env where
  ethereum : Bool
  accounts : Except JSError (List String)
  requestAccounts : Except JSError (List String)
  submit : Handle → ContractCall → Except JSError Tx
  wait : Tx → Except JSError Unit
  getProjects : Handle → Except JSError (List RawProject)
  stats : Handle → Except JSError RawStats
  getProject : Handle → ℕ → Except JSError RawProject
  getBackers : Handle → ℕ → Except JSError (List RawBacker)
  tz : ℤ → ℤ

/-- An asynchronous computation run to completion: it ends resolved (`ok`) or rejected
(`error`), and leaves a new page state. -/
def Run (α : Type) : Type := World → Except JSError α × World

/-- Resolve with a value. -/
def Run.pure {α : Type} (a : α) : Run α := fun w => (.ok a, w)

/-- Sequencing; a rejection skips the continuation. -/
def Run.bind {α β : Type} (m : Run α) (f : α → Run β) : Run β := fun w =>
  match m w with
  | (.ok a, w1) => f a w1
  | (.error e, w1) => (.error e, w1)

instance : Monad Run where
  pure := Run.pure
  bind := Run.bind

/-- The statement `throw e`. -/
def Run.throw {α : Type} (e : JSError) : Run α := fun w => (.error e, w)

/-- The statement `try body catch (error) handler(error)`. -/
def Run.tryCatch {α : Type} (body : Run α) (handler : JSError → Run α) : Run α := fun w =>
  match body w with
  | (.ok a, w1) => (.ok a, w1)
  | (.error e, w1) => handler e w1

/-- Use the outcome of a library call or of an awaited promise. -/
def Run.ofExcept {α : Type} (r : Except JSError α) : Run α := fun w => (r, w)

/-- Record an effect. -/
def emit (e : Event) : Run Unit := fun w => (.ok (), { w with trace := w.trace ++ [e] })

/-- Modelled from the spec: `getGlobalState(key)` of the absent `../store` module, here giving
the whole store from which the caller takes the entry for its key. -/
def getGlobalState : Run Store := fun w => (.ok w.store, w)

/-- Modelled from the spec: `setGlobalState(key, value)` of the absent `../store` module; the
update function replaces the entry of one key. -/
def setGlobalState (update : Store → Store) : Run Unit := fun w =>
  (.ok (), { w with store := update w.store })

/-- Assignment to the module variable `tx`. -/
def setTx (t : Tx) : Run Unit := fun w => (.ok (), { w with tx := some t })

/-- Call `window.ethereum.on(event, handler)`. -/
def addListener (l : Listener) : Run Unit := fun w =>
  (.ok (), { w with listeners := w.listeners ++ [l] })

/-- Truthiness of the `connectedAccount` entry: `undefined` and the empty string are falsy. -/
def truthy : Option String → Bool
  | none => false
  | some s => s != ""

/-- The expression `accounts[0]?.toLowerCase()`. -/
def firstLower (accounts : List String) : Option String :=
  accounts.head?.map toLowerCase

/-- The source's `reportError`: log the message, then throw `new Error('No ethereum object.')`. -/
def reportError {α : Type} (error : JSError) : Run α := do
  emit (.logError error)
  Run.throw (.error "No ethereum object.")

/-- The source's `connectWallet`. -/
def connectWallet (env : Env) : Run Unit :=
  Run.tryCatch
    (do
      if !env.ethereum then emit (.alert "Please install Metamask")
      else do
        emit (.request "eth_requestAccounts")
        let accounts ← Run.ofExcept env.requestAccounts
        setGlobalState fun s => { s with connectedAccount := firstLower accounts })
    reportError

/-- The source's `isWallectConnected`. -/
def isWallectConnected (env : Env) : Run Unit :=
  Run.tryCatch
    (do
      if !env.ethereum then emit (.alert "Please install Metamask")
      else do
        emit (.request "eth_accounts")
        let accounts ← Run.ofExcept env.accounts
        setGlobalState fun s => { s with connectedAccount := firstLower accounts }
        addListener .chainChanged
        addListener (.accountsChanged accounts)
        if accounts.length ≠ 0 then
          setGlobalState fun s => { s with connectedAccount := firstLower accounts }
        else do
          emit (.alert "Please connect wallet.")
          emit (.log "No accounts found."))
    reportError

/-- Run a registered handler when the provider fires its event.  The `accountsChanged` handler
first runs `setGlobalState('connectedAccount', accounts[0]?.toLowerCase())` with `accounts` the
captured array and then awaits `isWallectConnected()`; the `chainChanged` handler reloads the
page. -/
def Listener.handle (env : Env) : Listener → Run Unit
  | .chainChanged => emit .reload
  | .accountsChanged accounts => do
      setGlobalState fun s => { s with connectedAccount := firstLower accounts }
      isWallectConnected env

/-- The source's `getEtheriumContract`; `none` is `undefined`.  Building the provider from a
missing `ethereum` object throws in `ethers`. -/
def getEtheriumContract (env : Env) : Run (Option Handle) := do
  let store ← getGlobalState
  if truthy store.connectedAccount then
    if !env.ethereum then Run.throw (.ethers "INVALID_ARGUMENT" "missing provider")
    else do
      emit .build
      pure (some Handle.signer)
  else
    pure store.contract

/-- Invoke a state-changing method on the resolved handle and await its response. -/
def submitCall (env : Env) (contract : Option Handle) (call : ContractCall) : Run Tx :=
  match contract with
  | none => Run.throw (.typeError "Cannot read properties of undefined")
  | some h => do
      emit (.submit h call)
      Run.ofExcept (env.submit h call)

/-- Await `tx.wait()`. -/
def awaitTx (env : Env) (t : Tx) : Run Unit := do
  emit (.wait t)
  Run.ofExcept (env.wait t)

/-- Invoke a read-only method on the resolved handle and await its result. -/
def readCall {α : Type} (contract : Option Handle) (call : ReadCall)
    (answer : Handle → Except JSError α) : Run α :=
  match contract with
  | none => Run.throw (.typeError "Cannot read properties of undefined")
  | some h => do
      emit (.read h call)
      Run.ofExcept (answer h)

/-- The source's `loadProjects`. -/
def loadProjects (env : Env) : Run Unit :=
  Run.tryCatch
    (do
      if !env.ethereum then emit (.alert "Please install Metamask")
      else do
        let contract ← getEtheriumContract env
        let projects ← readCall contract .getProjects env.getProjects
        let stats ← readCall contract .stats env.stats
        let structured ← Run.ofExcept (structureStats stats)
        setGlobalState fun s => { s with stats := some structured }
        let structured ← Run.ofExcept (structuredProjects env.tz projects)
        setGlobalState fun s => { s with projects := some structured })
    reportError

/-- The source's `loadProject`. -/
def loadProject (env : Env) (id : ℕ) : Run Unit :=
  Run.tryCatch
    (do
      if !env.ethereum then emit (.alert "Please install Metamask")
      else do
        let contract ← getEtheriumContract env
        let project ← readCall contract (.getProject id) (fun h => env.getProject h id)
        let structured ← Run.ofExcept (structuredProjects env.tz [project])
        setGlobalState fun s => { s with project := structured.head? })
    (fun error => do
      emit (.alertError error)
      reportError error)

/-- The source's `getBackers`. -/
def getBackers (env : Env) (id : ℕ) : Run Unit :=
  Run.tryCatch
    (do
      if !env.ethereum then emit (.alert "Please install Metamask")
      else do
        let contract ← getEtheriumContract env
        let backers ← readCall contract (.getBackers id) (fun h => env.getBackers h id)
        let structured ← Run.ofExcept (structuredBackers backers)
        setGlobalState fun s => { s with backers := some structured })
    reportError

/-- The source's `createProject`. -/
def createProject (env : Env) (title description imageURL cost : String)
    (expiresAt : JSNumber) : Run Unit :=
  Run.tryCatch
    (do
      if !env.ethereum then emit (.alert "Please install Metamask")
      else do
        let contract ← getEtheriumContract env
        let cost ← Run.ofExcept (parseEther cost)
        let t ← submitCall env contract (.createProject title description imageURL cost expiresAt)
        setTx t
        awaitTx env t
        loadProjects env)
    reportError

/-- The source's `updateProject`. -/
def updateProject (env : Env) (id : ℕ) (title description imageURL : String)
    (expiresAt : JSNumber) : Run Unit :=
  Run.tryCatch
    (do
      if !env.ethereum then emit (.alert "Please install Metamask")
      else do
        let contract ← getEtheriumContract env
        let t ← submitCall env contract (.updateProject id title description imageURL expiresAt)
        setTx t
        awaitTx env t
        loadProject env id)
    reportError

/-- The source's `deleteProject`. -/
def deleteProject (env : Env) (id : ℕ) : Run Unit :=
  Run.tryCatch
    (do
      if !env.ethereum then emit (.alert "Please install Metamask")
      else do
        let contract ← getEtheriumContract env
        let _ ← submitCall env contract (.deleteProject id)
        pure ())
    reportError

/-- The source's `backProject`. -/
def backProject (env : Env) (id : ℕ) (amount : String) : Run Unit :=
  Run.tryCatch
    (do
      if !env.ethereum then emit (.alert "Please install Metamask")
      else do
        let store ← getGlobalState
        let connectedAccount := store.connectedAccount
        let contract ← getEtheriumContract env
        let amount ← Run.ofExcept (parseEther amount)
        let t ← submitCall env contract (.backProject id connectedAccount amount)
        setTx t
        awaitTx env t
        getBackers env id)
    reportError

/-- The source's `payoutProject`. -/
def payoutProject (env : Env) (id : ℕ) : Run Unit :=
  Run.tryCatch
    (do
      if !env.ethereum then emit (.alert "Please install Metamask")
      else do
        let store ← getGlobalState
        let connectedAccount := store.connectedAccount
        let contract ← getEtheriumContract env
        let t ← submitCall env contract (.payOutProject id connectedAccount)
        setTx t
        awaitTx env t
        getBackers env id)
    reportError

/-- The five write operations of the gateway with their arguments. -/
inductive WriteOp where
  | create (title description imageURL cost : String) (expiresAt : JSNumber)
  | update (id : ℕ) (title description imageURL : String) (expiresAt : JSNumber)
  | delete (id : ℕ)
  | back (id : ℕ) (amount : String)
  | payout (id : ℕ)

/-- Run a write operation. -/
def WriteOp.run (env : Env) : WriteOp → Run Unit
  | .create title description imageURL cost expiresAt =>
      createProject env title description imageURL cost expiresAt
  | .update id title description imageURL expiresAt =>
      updateProject env id title description imageURL expiresAt
  | .delete id => deleteProject env id
  | .back id amount => backProject env id amount
  | .payout id => payoutProject env id

/-! ## Sample inputs -/

/-- The host offset of a machine running on UTC. -/
def utc : ℤ → ℤ := fun _ => 0

/-- The raw project of the scenario: id 1, owner `0xABC...`, cost 2.5 ether, raised 1 ether,
two backers, status code 0, expiring at 1735689600 seconds. -/
def scenarioProject : RawProject :=
  { id := 1
    owner := "0xABC..."
    title := "Well"
    description := "A village well"
    timestamp := 1700000000
    expiresAt := 1735689600
    imageURL := "https://example.org/well.png"
    raised := 1000000000000000000
    cost := 2500000000000000000
    backers := 2
    status := 0 }

/-- A later project on the same ledger. -/
def secondProject : RawProject :=
  { scenarioProject with
    id := 2
    owner := "0xDEF..."
    timestamp := 1700000500
    backers := 0
    raised := 0
    status := 1 }

/-- A project whose creator passed an expiry that does not fit in 53 bits. -/
def farFutureProject : RawProject :=
  { scenarioProject with
    id := 3
    expiresAt := 2 ^ 64 }

/-- Two backers of one project, in ledger order. -/
def sampleBackers : List RawBacker :=
  [ { owner := "0xAAA1", refunded := false, timestamp := 1700000100,
      contribution := 500000000000000000 },
    { owner := "0xBBB2", refunded := true, timestamp := 1700000200,
      contribution := 500000000000000000 } ]


/-! ## Reading a decimal amount -/

/-- The decimal amount written with the digit strings `whole` and `fraction` on either side of
the decimal point. -/
def decimalValue (whole fraction : List Char) : ℚ :=
  (digitsValue whole : ℚ) + (digitsValue fraction : ℚ) / 10 ^ fraction.length

/-- Ledger statistics with total donations of exactly one ether. -/
def oneEtherStats : RawStats :=
  { totalProjects := 1, totalBacking := 1, totalDonations := 1000000000000000000 }

/-- Ledger statistics with total donations of one ether and one wei. -/
def oneEtherOneWeiStats : RawStats :=
  { totalProjects := 1, totalBacking := 1, totalDonations := 1000000000000000001 }

/-- A wallet with one authorized account and a ledger that accepts every call. -/
def demoEnv : Env :=
  { ethereum := true
    accounts := .ok ["0xAbC1"]
    requestAccounts := .ok ["0xAbC1"]
    submit := fun _ _ => .ok ⟨7⟩
    wait := fun _ => .ok ()
    getProjects := fun _ => .ok [scenarioProject, secondProject]
    stats := fun _ => .ok oneEtherStats
    getProject := fun _ _ => .ok scenarioProject
    getBackers := fun _ _ => .ok sampleBackers
    tz := utc }

/-- The same ledger seen from a browser without a wallet extension. -/
def noWalletEnv : Env :=
  { demoEnv with ethereum := false }

/-- The same wallet with no account authorized for this page. -/
def lockedEnv : Env :=
  { demoEnv with accounts := .ok [] }

/-- The page after the account `0xabc1` has been connected. -/
def connectedWorld : World :=
  { World.initial with store := { Store.empty with connectedAccount := some "0xabc1" } }

/-- The same wallet and ledger, with the contract method `backProject` rejecting a call whose
`value` is negative (a negative quantity cannot be encoded in a transaction). -/
def strictEnv : Env :=
  { demoEnv with
    submit := fun _ call =>
      match call with
      | .backProject _ _ value =>
          if value < 0 then .error (.ethers "INVALID_ARGUMENT" "invalid hex string")
          else .ok ⟨7⟩
      | _ => .ok ⟨7⟩ }

/-! ## Expiry in `ProjectCard` (src/components/Projects.jsx) -/

/-- The ECMAScript `>` operator on Numbers; a comparison with NaN is false. -/
def JSNumber.gt : JSNumber → JSNumber → Bool
  | .nan, _ => false
  | _, .nan => false
  | .negInf, _ => false
  | .posInf, .posInf => false
  | .posInf, _ => true
  | .fin _, .posInf => false
  | .fin _, .negInf => true
  | .fin a, .fin b => decide (b < a)

/-- `Number::toString` in radix 10.  NaN and the infinities have fixed spellings; an integer of
magnitude below `2^53` is spelled by its decimal digits.  Every other finite value is spelled
by the shortest digit string that reads back to it, which the parameter `shortest` supplies. -/
def numberToString (shortest : ℚ → String) : JSNumber → String
  | .nan => "NaN"
  | .posInf => "Infinity"
  | .negInf => "-Infinity"
  | .fin q => if q.den = 1 ∧ |q| < 2 ^ 53 then showNumber (some q.num) else shortest q

/-- An ASCII letter that occurs in no numeric string literal (the letters that do occur are the
hexadecimal digits, the radix and exponent markers and those of `Infinity`). -/
def foreignLetter (c : Char) : Bool :=
  c.isAlpha && !("abcdefABCDEFxXoOInity".data.contains c)

/-- `Number(text)` (StringToNumber).  A text holding a letter foreign to numeric literals is
NaN; a run of decimal digits with an optional minus sign is the Number nearest to the integer
it spells; the other literal forms (blanks, fractions, exponents, radix prefixes, `Infinity`)
are left to the parameter `other`. -/
def stringToNumber (other : String → JSNumber) (text : String) : JSNumber :=
  let cs := text.data
  if cs.any foreignLetter then .nan
  else
    let negative := decide (cs.head? = some '-')
    let body := if negative then cs.tail else cs
    if !body.isEmpty && body.all Char.isDigit then
      roundDouble (if negative then -(digitsValue body : ℚ) else (digitsValue body : ℚ))
    else other text

/-- The source's
`const expired = new Date().getTime() > Number(project?.expiresAt + '000')`,
with `now` the value of `new Date().getTime()`. -/
def expired (shortest : ℚ → String) (other : String → JSNumber) (now : ℤ)
    (project : Project) : Bool :=
  (JSNumber.fin now).gt
    (stringToNumber other (numberToString shortest project.expiresAt ++ "000"))

/-! ## The creation form (src/components/CreateProject.jsx) -/

/-- The source's `toTimestamp`:
```
const dateObj = Date.parse(dateStr)
return dateObj / 1000
```
`parse` is the host's `Date.parse`, giving the time value in milliseconds or `none` for NaN. -/
def toTimestamp (parse : String → Option ℤ) (dateStr : String) : JSNumber :=
  (getTime (parse dateStr)).div (.fin 1000)

/-- The source's `handleSubmit` up to and including `await createProject(params)`: the form is
dropped when a field is empty, otherwise the project is created with
`expiresAt: toTimestamp(date)`.  The toast and the closing of the modal that follow are
presentation effects and are not tracked. -/
def handleSubmit (env : Env) (parse : String → Option ℤ)
    (title description cost date imageURL : String) : Run Unit :=
  if title = "" ∨ description = "" ∨ cost = "" ∨ date = "" ∨ imageURL = "" then pure ()
  else createProject env title description imageURL cost (toTimestamp parse date)

/-- Day number counted from 1970-01-01 of a proleptic Gregorian date. -/
def daysFromCivil (year month day : ℤ) : ℤ :=
  let y := if month ≤ 2 then year - 1 else year
  let era := y / 400
  let yoe := y - era * 400
  let mp := if 2 < month then month - 3 else month + 9
  let doy := (153 * mp + 2) / 5 + day - 1
  let doe := yoe * 365 + yoe / 4 - yoe / 100 + doy
  era * 146097 + doe - 719468

/-- Number of days of a month. -/
def daysInMonth (year month : ℕ) : ℕ :=
  if month = 2 then
    (if year % 4 = 0 ∧ (year % 100 ≠ 0 ∨ year % 400 = 0) then 29 else 28)
  else if month = 4 ∨ month = 6 ∨ month = 9 ∨ month = 11 then 30
  else 31

/-- The number spelled by the `len` characters from position `start`, when they are all
decimal digits. -/
def digitField (cs : List Char) (start len : ℕ) : Option ℕ :=
  let part := (cs.drop start).take len
  if part.length = len ∧ part.all Char.isDigit then some (digitsValue part) else none

/-- Time value of a UTC calendar date and time of day, when the fields are in range. -/
def utcTime (year month day hour minute second milli : ℕ) : Option ℤ :=
  if 1 ≤ month ∧ month ≤ 12 ∧ 1 ≤ day ∧ day ≤ daysInMonth year month ∧ hour ≤ 23 ∧
      minute ≤ 59 ∧ second ≤ 59 then
    some (daysFromCivil year month day * 86400000
      + ((hour : ℤ) * 3600000 + (minute : ℤ) * 60000 + (second : ℤ) * 1000 + (milli : ℤ)))
  else none

/-- A host `Date.parse` that recognises the two commonest shapes of the ECMAScript date-time
string format, the date `YYYY-MM-DD` (what an `input type="date"` delivers) and the UTC
instant `YYYY-MM-DDTHH:mm:ss.sssZ`, and answers NaN (`none`) for every other text. -/
def isoParse (text : String) : Option ℤ :=
  let cs := text.data
  let dateOk := cs.get? 4 = some '-' ∧ cs.get? 7 = some '-'
  let timeOk := cs.get? 10 = some 'T' ∧ cs.get? 13 = some ':' ∧ cs.get? 16 = some ':' ∧
    cs.get? 19 = some '.' ∧ cs.get? 23 = some 'Z'
  if cs.length = 10 ∧ dateOk then do
    let year ← digitField cs 0 4
    let month ← digitField cs 5 2
    let day ← digitField cs 8 2
    utcTime year month day 0 0 0 0
  else if cs.length = 24 ∧ dateOk ∧ timeOk then do
    let year ← digitField cs 0 4
    let month ← digitField cs 5 2
    let day ← digitField cs 8 2
    let hour ← digitField cs 11 2
    let minute ← digitField cs 14 2
    let second ← digitField cs 17 2
    let milli ← digitField cs 20 3
    utcTime year month day hour minute second milli
  else none

/-- A project whose expiry, `9 * 10^15` seconds, is a safe integer beyond the range of `Date`. -/
def distantProject : RawProject :=
  { scenarioProject with
    id := 4
    expiresAt := 9000000000000000 }

/-- The same wallet and ledger, with the contract method `createProject` rejecting an
`expiresAt` that is not a non-negative integer (such a value cannot be encoded as an unsigned
integer argument). -/
def checkedEnv : Env :=
  { demoEnv with
    submit := fun _ call =>
      match call with
      | .createProject _ _ _ _ (.fin q) =>
          if q.den = 1 ∧ 0 ≤ q.num then .ok ⟨7⟩
          else .error (.ethers "INVALID_ARGUMENT" "invalid BigNumber value")
      | .createProject _ _ _ _ _ =>
          .error (.ethers "INVALID_ARGUMENT" "invalid BigNumber value")
      | _ => .ok ⟨7⟩ }
/-! # Theorems -/

/-! ## Rounding to binary64 -/

theorem log_two_eq (q : ℚ) (e : ℤ) (hlo : (2 : ℚ) ^ e ≤ q) (hhi : q < (2 : ℚ) ^ (e + 1)) :
    Int.log 2 q = e := by
  have hq : 0 < q := lt_of_lt_of_le (by positivity) hlo
  have h1 : e ≤ Int.log 2 q :=
    (Int.zpow_le_iff_le_log (b := 2) (by norm_num) hq).1 (by exact_mod_cast hlo)
  have h2 : Int.log 2 q < e + 1 :=
    (Int.lt_zpow_iff_log_lt (b := 2) (by norm_num) hq).1 (by exact_mod_cast hhi)
  omega

theorem roundHalfEven_near (q : ℚ) (n : ℤ) (h : |q - n| < 1 / 2) : roundHalfEven q = n := by
  rw [abs_lt] at h
  unfold roundHalfEven
  simp only
  by_cases hfl : ⌊q⌋ = n
  · rw [hfl]
    rw [if_pos h.2]
  · have hfl' : ⌊q⌋ = n - 1 := by
      rw [Int.floor_eq_iff]
      push_cast
      constructor
      · linarith
      · by_contra hc
        push_neg at hc
        apply hfl
        rw [Int.floor_eq_iff]
        constructor <;> linarith
    rw [hfl']
    push_cast
    rw [if_neg (by linarith), if_pos (by linarith)]
    ring

theorem roundHalfEven_intCast (n : ℤ) : roundHalfEven (n : ℚ) = n :=
  roundHalfEven_near _ n (by simp)

theorem roundHalfEven_error (q : ℚ) : |(roundHalfEven q : ℚ) - q| ≤ 1 / 2 := by
  have h1 := Int.floor_le q
  have h2 := Int.lt_floor_add_one q
  unfold roundHalfEven
  simp only
  rw [abs_le]
  split_ifs with ha hb hc <;> push_cast <;> constructor <;> linarith

theorem ulp_eq (q : ℚ) (e : ℤ) (hlo : (2 : ℚ) ^ e ≤ q) (hhi : q < (2 : ℚ) ^ (e + 1))
    (he : -1022 ≤ e) : ulp q = (2 : ℚ) ^ (e - 52) := by
  unfold ulp
  rw [log_two_eq q e hlo hhi, max_eq_left he]

/-- Evaluation rule for `roundPos`: when `q` lies in the binade of exponent `e` and `q / 2^(e-52)`
is strictly closer to the integer `n` than to any other, the result is `n * 2^(e-52)`. -/
theorem roundPos_near (q : ℚ) (e n : ℤ) (hlo : (2 : ℚ) ^ e ≤ q) (hhi : q < (2 : ℚ) ^ (e + 1))
    (he : -1022 ≤ e) (hn : |q / (2 : ℚ) ^ (e - 52) - n| < 1 / 2)
    (hfin : (n : ℚ) * (2 : ℚ) ^ (e - 52) < (2 : ℚ) ^ (1024 : ℕ)) :
    roundPos q = .fin ((n : ℚ) * (2 : ℚ) ^ (e - 52)) := by
  unfold roundPos
  simp only
  rw [ulp_eq q e hlo hhi he, roundHalfEven_near _ n hn, if_pos hfin]

/-- A positive rational that is an integer multiple of its own spacing is a binary64 value. -/
theorem roundPos_exact (q : ℚ) (e n : ℤ) (hlo : (2 : ℚ) ^ e ≤ q) (hhi : q < (2 : ℚ) ^ (e + 1))
    (he : -1022 ≤ e) (he' : e < 1024) (hn : q = (n : ℚ) * (2 : ℚ) ^ (e - 52)) :
    roundPos q = .fin q := by
  have hpos : (0 : ℚ) < (2 : ℚ) ^ (e - 52) := by positivity
  have hq : q / (2 : ℚ) ^ (e - 52) = n := by
    rw [hn]; field_simp
  have hlt : q < (2 : ℚ) ^ (1024 : ℕ) := by
    refine lt_of_lt_of_le hhi ?_
    have : (2 : ℚ) ^ (e + 1) ≤ (2 : ℚ) ^ ((1024 : ℕ) : ℤ) :=
      zpow_le_zpow_right₀ (by norm_num) (by push_cast; omega)
    rw [zpow_natCast] at this
    exact this
  have := roundPos_near q e n hlo hhi he (by rw [hq]; simp) (by rw [← hn]; exact hlt)
  rw [this, ← hn]

/-- Rounding a positive rational in the normal range stays finite and moves it by at most
a relative `2^-53`. -/
theorem roundPos_close (q : ℚ) (h1 : (2 : ℚ) ^ (-1022 : ℤ) ≤ q) (h2 : q ≤ (2 : ℚ) ^ (1023 : ℕ)) :
    ∃ r, roundPos q = .fin r ∧ |r - q| ≤ q / 2 ^ (53 : ℕ) := by
  have hq : 0 < q := lt_of_lt_of_le (by positivity) h1
  set e := Int.log 2 q with he_def
  have hlo : (2 : ℚ) ^ e ≤ q := by
    have := Int.zpow_log_le_self (b := 2) (r := q) (by norm_num) hq
    exact_mod_cast this
  have he : -1022 ≤ e :=
    (Int.zpow_le_iff_le_log (b := 2) (by norm_num) hq).1 (by exact_mod_cast h1)
  have hu : ulp q = (2 : ℚ) ^ (e - 52) := by
    unfold ulp
    rw [← he_def, max_eq_left he]
  have hupos : (0 : ℚ) < (2 : ℚ) ^ (e - 52) := by positivity
  have herr := roundHalfEven_error (q / (2 : ℚ) ^ (e - 52))
  have hsplit : (2 : ℚ) ^ (e - 52) = (2 : ℚ) ^ e / 2 ^ (52 : ℕ) := by
    rw [zpow_sub₀ (by norm_num)]; norm_num
  have hdist : |(roundHalfEven (q / (2 : ℚ) ^ (e - 52)) : ℚ) * (2 : ℚ) ^ (e - 52) - q|
      ≤ q / 2 ^ (53 : ℕ) := by
    have heq : (roundHalfEven (q / (2 : ℚ) ^ (e - 52)) : ℚ) * (2 : ℚ) ^ (e - 52) - q
        = ((roundHalfEven (q / (2 : ℚ) ^ (e - 52)) : ℚ) - q / (2 : ℚ) ^ (e - 52))
          * (2 : ℚ) ^ (e - 52) := by
      field_simp
    rw [heq, abs_mul, abs_of_pos hupos]
    calc |(roundHalfEven (q / (2 : ℚ) ^ (e - 52)) : ℚ) - q / (2 : ℚ) ^ (e - 52)|
          * (2 : ℚ) ^ (e - 52)
        ≤ 1 / 2 * (2 : ℚ) ^ (e - 52) := by
          exact mul_le_mul_of_nonneg_right herr hupos.le
      _ = (2 : ℚ) ^ e / 2 ^ (53 : ℕ) := by rw [hsplit]; ring
      _ ≤ q / 2 ^ (53 : ℕ) := by
          exact div_le_div_of_nonneg_right hlo (by positivity)
  refine ⟨(roundHalfEven (q / (2 : ℚ) ^ (e - 52)) : ℚ) * (2 : ℚ) ^ (e - 52), ?_, hdist⟩
  unfold roundPos
  simp only
  rw [hu, if_pos]
  have hup := (abs_le.1 hdist).2
  have : q / 2 ^ (53 : ℕ) ≤ (2 : ℚ) ^ (1023 : ℕ) / 2 ^ (53 : ℕ) :=
    div_le_div_of_nonneg_right h2 (by positivity)
  have h1024 : (2 : ℚ) ^ (1024 : ℕ) = 2 * (2 : ℚ) ^ (1023 : ℕ) := by
    rw [pow_succ]; ring
  have hsmall : (2 : ℚ) ^ (1023 : ℕ) / 2 ^ (53 : ℕ) < (2 : ℚ) ^ (1023 : ℕ) := by
    apply div_lt_self (by positivity)
    norm_num
  rw [h1024]
  linarith

/-- Every natural number up to `2^53` is a binary64 value. -/
theorem roundDouble_natCast_exact (n : ℕ) (h : n ≤ 2 ^ 53) : roundDouble (n : ℚ) = .fin n := by
  rcases Nat.eq_zero_or_pos n with h0 | hpos
  · subst h0; simp [roundDouble]
  have hq : (0 : ℚ) < n := by exact_mod_cast hpos
  unfold roundDouble
  rw [if_neg hq.ne', if_pos hq]
  have hk1 : 2 ^ Nat.log 2 n ≤ n := Nat.pow_log_le_self 2 hpos.ne'
  have hk2 : n < 2 ^ (Nat.log 2 n + 1) := Nat.lt_pow_succ_log_self (by norm_num) n
  set k := Nat.log 2 n with hk
  have hlo : (2 : ℚ) ^ (k : ℤ) ≤ n := by
    rw [zpow_natCast]; exact_mod_cast hk1
  have hhi : (n : ℚ) < (2 : ℚ) ^ ((k : ℤ) + 1) := by
    have : ((k : ℤ) + 1) = ((k + 1 : ℕ) : ℤ) := by push_cast; ring
    rw [this, zpow_natCast]; exact_mod_cast hk2
  have hk53 : k ≤ 53 := by
    by_contra hc
    push_neg at hc
    have : 2 ^ 54 ≤ 2 ^ k := Nat.pow_le_pow_right (by norm_num) hc
    omega
  rcases Nat.lt_or_ge k 53 with hlt | hge
  · refine roundPos_exact (n : ℚ) k ((n * 2 ^ (52 - k) : ℕ) : ℤ) hlo hhi (by omega) (by omega) ?_
    have h2 : (2 : ℚ) ^ ((k : ℤ) - 52) = (2 : ℚ) ^ k / 2 ^ (52 : ℕ) := by
      rw [zpow_sub₀ (by norm_num), zpow_natCast]; norm_num
    have h3 : (2 : ℚ) ^ (52 - k) * 2 ^ k = 2 ^ (52 : ℕ) := by
      rw [← pow_add]; congr 1; omega
    rw [h2]
    push_cast
    field_simp
    rw [mul_assoc, h3]
  · have hk' : k = 53 := by omega
    have hn : n = 2 ^ 53 := by
      rw [hk'] at hk1; omega
    refine roundPos_exact (n : ℚ) k ((2 ^ 52 : ℕ) : ℤ) hlo hhi (by omega) (by omega) ?_
    rw [hk', hn]
    norm_num

/-- `parseInt(x._hex)` is exact up to `2^53`. -/
theorem parseIntHex_exact (n : ℕ) (h : n ≤ 2 ^ 53) : parseIntHex n = .fin n :=
  roundDouble_natCast_exact n h

/-- When the integer read by `parseInt` is itself a binary64 value, the monetary field is the
binary64 value nearest to `n / 10^18`. -/
theorem weiToEther_of_exact (n : ℕ) (h : parseIntHex n = .fin n) :
    weiToEther n = roundDouble ((n : ℚ) / 10 ^ (18 : ℕ)) := by
  unfold weiToEther
  rw [h]
  simp [tenPow18, JSNumber.div]

/-- Two roundings: the monetary field is finite and within a relative `2^-51` of the exact
quotient, for every raw integer up to `2^1023`. -/
theorem weiToEther_close (n : ℕ) (h : (n : ℚ) ≤ (2 : ℚ) ^ (1023 : ℕ)) :
    ∃ v, weiToEther n = .fin v ∧
      |v - (n : ℚ) / 10 ^ (18 : ℕ)| ≤ (n : ℚ) / 10 ^ (18 : ℕ) / 2 ^ (51 : ℕ) := by
  rcases Nat.eq_zero_or_pos n with h0 | hpos
  · subst h0
    refine ⟨0, ?_, by simp⟩
    simp [weiToEther, parseIntHex, roundDouble, tenPow18, JSNumber.div]
  have hq : (1 : ℚ) ≤ n := by exact_mod_cast hpos
  have hq0 : (0 : ℚ) < n := by linarith
  obtain ⟨a, ha, hda⟩ := roundPos_close (n : ℚ)
    (le_trans (by norm_num) hq) h
  have hpi : parseIntHex n = .fin a := by
    unfold parseIntHex roundDouble
    rw [if_neg hq0.ne', if_pos hq0, ha]
  have habs := abs_le.1 hda
  have hsmall : (n : ℚ) / 2 ^ (53 : ℕ) ≤ (n : ℚ) / 2 := by
    apply div_le_div_of_nonneg_left hq0.le (by norm_num) (by norm_num)
  have ha_lo : (n : ℚ) / 2 ≤ a := by linarith [habs.1]
  have ha_pos : 0 < a := by linarith
  have ha_hi : a ≤ 2 * (n : ℚ) := by linarith [habs.2]
  have hten : (0 : ℚ) < 10 ^ (18 : ℕ) := by positivity
  have hb_pos : 0 < a / 10 ^ (18 : ℕ) := div_pos ha_pos hten
  have hb_lo : (2 : ℚ) ^ (-1022 : ℤ) ≤ a / 10 ^ (18 : ℕ) := by
    rw [le_div_iff₀ hten]
    have h1 : (2 : ℚ) ^ (-1022 : ℤ) * 10 ^ (18 : ℕ) ≤ 1 / 2 := by
      have h2 : (2 : ℚ) ^ (-1022 : ℤ) ≤ (2 : ℚ) ^ (-61 : ℤ) :=
        zpow_le_zpow_right₀ (by norm_num) (by norm_num)
      have h3 : (2 : ℚ) ^ (-61 : ℤ) * 10 ^ (18 : ℕ) ≤ 1 / 2 := by norm_num
      calc (2 : ℚ) ^ (-1022 : ℤ) * 10 ^ (18 : ℕ)
          ≤ (2 : ℚ) ^ (-61 : ℤ) * 10 ^ (18 : ℕ) :=
            mul_le_mul_of_nonneg_right h2 hten.le
        _ ≤ 1 / 2 := h3
    have h4 : (1 : ℚ) / 2 ≤ a := by linarith
    exact le_trans h1 h4
  have hb_hi : a / 10 ^ (18 : ℕ) ≤ (2 : ℚ) ^ (1023 : ℕ) := by
    rw [div_le_iff₀ hten]
    have : (2 : ℚ) * 2 ^ (1023 : ℕ) ≤ 2 ^ (1023 : ℕ) * 10 ^ (18 : ℕ) := by
      have : (2 : ℚ) ≤ 10 ^ (18 : ℕ) := by norm_num
      nlinarith [pow_pos (show (0 : ℚ) < 2 by norm_num) 1023]
    linarith
  obtain ⟨v, hv, hdv⟩ := roundPos_close (a / 10 ^ (18 : ℕ)) hb_lo hb_hi
  refine ⟨v, ?_, ?_⟩
  · unfold weiToEther
    rw [hpi]
    simp only [tenPow18, JSNumber.div]
    rw [if_neg hten.ne']
    unfold roundDouble
    rw [if_neg hb_pos.ne', if_pos hb_pos, hv]
  · have e1 : |a / 10 ^ (18 : ℕ) - (n : ℚ) / 10 ^ (18 : ℕ)|
        ≤ (n : ℚ) / 10 ^ (18 : ℕ) / 2 ^ (53 : ℕ) := by
      rw [← sub_div, abs_div, abs_of_pos hten]
      rw [div_right_comm]
      exact div_le_div_of_nonneg_right hda hten.le
    have e2 : a / 10 ^ (18 : ℕ) / 2 ^ (53 : ℕ) ≤ 2 * ((n : ℚ) / 10 ^ (18 : ℕ)) / 2 ^ (53 : ℕ) := by
      apply div_le_div_of_nonneg_right _ (by positivity)
      rw [mul_div_assoc']
      exact div_le_div_of_nonneg_right ha_hi hten.le
    have e3 : |v - (n : ℚ) / 10 ^ (18 : ℕ)|
        ≤ |v - a / 10 ^ (18 : ℕ)| + |a / 10 ^ (18 : ℕ) - (n : ℚ) / 10 ^ (18 : ℕ)| := by
      have := abs_add (v - a / 10 ^ (18 : ℕ)) (a / 10 ^ (18 : ℕ) - (n : ℚ) / 10 ^ (18 : ℕ))
      simpa using this
    have hx : (0 : ℚ) ≤ (n : ℚ) / 10 ^ (18 : ℕ) := by positivity
    have e4 : 2 * ((n : ℚ) / 10 ^ (18 : ℕ)) / 2 ^ (53 : ℕ) + (n : ℚ) / 10 ^ (18 : ℕ) / 2 ^ (53 : ℕ)
        ≤ (n : ℚ) / 10 ^ (18 : ℕ) / 2 ^ (51 : ℕ) := by
      have : (2 : ℚ) ^ (53 : ℕ) = 4 * 2 ^ (51 : ℕ) := by norm_num
      rw [this]
      have h51 : (0 : ℚ) < 2 ^ (51 : ℕ) := by positivity
      rw [div_add_div_same, div_le_div_iff₀ (by positivity) h51]
      nlinarith [mul_nonneg hx h51.le]
    linarith

/-- Evaluation rule for `roundDouble` on a positive rational (see `roundPos_near`). -/
theorem roundDouble_near (q : ℚ) (e n : ℤ) (hlo : (2 : ℚ) ^ e ≤ q) (hhi : q < (2 : ℚ) ^ (e + 1))
    (he : -1022 ≤ e) (hn : |q / (2 : ℚ) ^ (e - 52) - n| < 1 / 2)
    (hfin : (n : ℚ) * (2 : ℚ) ^ (e - 52) < (2 : ℚ) ^ (1024 : ℕ)) :
    roundDouble q = .fin ((n : ℚ) * (2 : ℚ) ^ (e - 52)) := by
  have hq : 0 < q := lt_of_lt_of_le (by positivity) hlo
  unfold roundDouble
  rw [if_neg hq.ne', if_pos hq]
  exact roundPos_near q e n hlo hhi he hn hfin

/-- Dividing a finite number by `10 ** 18`. -/
theorem div_tenPow18 (a : ℚ) :
    (JSNumber.fin a).div tenPow18 = roundDouble (a / 10 ^ (18 : ℕ)) := by
  simp [tenPow18, JSNumber.div]

theorem weiToEther_one_ether : weiToEther 1000000000000000000 = .fin 1 := by
  have h1 : parseIntHex 1000000000000000000 = .fin 1000000000000000000 := by
    have := roundDouble_near 1000000000000000000 59 7812500000000000
      (by norm_num) (by norm_num) (by norm_num) (by norm_num [abs_lt]) (by norm_num)
    unfold parseIntHex
    push_cast
    rw [this]
    norm_num
  unfold weiToEther
  rw [h1, div_tenPow18]
  have := roundDouble_near (1000000000000000000 / 10 ^ (18 : ℕ)) 0 4503599627370496
    (by norm_num) (by norm_num) (by norm_num) (by norm_num [abs_lt]) (by norm_num)
  rw [this]
  norm_num

theorem weiToEther_one_ether_one_wei : weiToEther 1000000000000000001 = .fin 1 := by
  have h1 : parseIntHex 1000000000000000001 = .fin 1000000000000000000 := by
    have := roundDouble_near 1000000000000000001 59 7812500000000000
      (by norm_num) (by norm_num) (by norm_num) (by norm_num [abs_lt]) (by norm_num)
    unfold parseIntHex
    push_cast
    rw [this]
    norm_num
  unfold weiToEther
  rw [h1, div_tenPow18]
  have := roundDouble_near (1000000000000000000 / 10 ^ (18 : ℕ)) 0 4503599627370496
    (by norm_num) (by norm_num) (by norm_num) (by norm_num [abs_lt]) (by norm_num)
  rw [this]
  norm_num

theorem weiToEther_two_and_a_half : weiToEther 2500000000000000000 = .fin (5 / 2) := by
  have h1 : parseIntHex 2500000000000000000 = .fin 2500000000000000000 := by
    have := roundDouble_near 2500000000000000000 61 4882812500000000
      (by norm_num) (by norm_num) (by norm_num) (by norm_num [abs_lt]) (by norm_num)
    unfold parseIntHex
    push_cast
    rw [this]
    norm_num
  unfold weiToEther
  rw [h1, div_tenPow18]
  have := roundDouble_near (2500000000000000000 / 10 ^ (18 : ℕ)) 1 5629499534213120
    (by norm_num) (by norm_num) (by norm_num) (by norm_num [abs_lt]) (by norm_num)
  rw [this]
  norm_num

theorem weiToEther_sixty_five_wei :
    weiToEther 1000000000000000065 = .fin (1 + 1 / 2 ^ (52 : ℕ)) := by
  have h1 : parseIntHex 1000000000000000065 = .fin 1000000000000000128 := by
    have := roundDouble_near 1000000000000000065 59 7812500000000001
      (by norm_num) (by norm_num) (by norm_num) (by norm_num [abs_lt]) (by norm_num)
    unfold parseIntHex
    push_cast
    rw [this]
    norm_num
  unfold weiToEther
  rw [h1, div_tenPow18]
  have := roundDouble_near (1000000000000000128 / 10 ^ (18 : ℕ)) 0 4503599627370497
    (by norm_num) (by norm_num) (by norm_num) (by norm_num [abs_lt]) (by norm_num)
  rw [this]
  norm_num

/-- Rounding error in terms of the binade: a positive rational with `2^e ≤ q < 2^(e+1)` in the
normal range moves by at most half a spacing, `2^(e-53)`. -/
theorem roundPos_close_ulp (q : ℚ) (e : ℤ) (hlo : (2 : ℚ) ^ e ≤ q) (hhi : q < (2 : ℚ) ^ (e + 1))
    (he : -1022 ≤ e) (he' : e < 1023) :
    ∃ r, roundPos q = .fin r ∧ |r - q| ≤ (2 : ℚ) ^ (e - 53) := by
  have hupos : (0 : ℚ) < (2 : ℚ) ^ (e - 52) := by positivity
  have herr := roundHalfEven_error (q / (2 : ℚ) ^ (e - 52))
  have hhalf : (1 : ℚ) / 2 * (2 : ℚ) ^ (e - 52) = (2 : ℚ) ^ (e - 53) := by
    have : e - 52 = (e - 53) + 1 := by ring
    rw [this, zpow_add_one₀ (by norm_num)]
    ring
  have hdist : |(roundHalfEven (q / (2 : ℚ) ^ (e - 52)) : ℚ) * (2 : ℚ) ^ (e - 52) - q|
      ≤ (2 : ℚ) ^ (e - 53) := by
    have heq : (roundHalfEven (q / (2 : ℚ) ^ (e - 52)) : ℚ) * (2 : ℚ) ^ (e - 52) - q
        = ((roundHalfEven (q / (2 : ℚ) ^ (e - 52)) : ℚ) - q / (2 : ℚ) ^ (e - 52))
          * (2 : ℚ) ^ (e - 52) := by
      field_simp
    rw [heq, abs_mul, abs_of_pos hupos, ← hhalf]
    exact mul_le_mul_of_nonneg_right herr hupos.le
  refine ⟨_, ?_, hdist⟩
  unfold roundPos
  simp only
  rw [ulp_eq q e hlo hhi he, if_pos]
  have hup := (abs_le.1 hdist).2
  have h1 : (2 : ℚ) ^ (e + 1) ≤ (2 : ℚ) ^ (1023 : ℤ) :=
    zpow_le_zpow_right₀ (by norm_num) (by omega)
  have h2 : (2 : ℚ) ^ (e - 53) ≤ (2 : ℚ) ^ (1023 : ℤ) :=
    zpow_le_zpow_right₀ (by norm_num) (by omega)
  have h3 : (2 : ℚ) ^ (1024 : ℕ) = (2 : ℚ) ^ (1023 : ℤ) + (2 : ℚ) ^ (1023 : ℤ) := by
    have : (2 : ℚ) ^ (1023 : ℤ) = (2 : ℚ) ^ (1023 : ℕ) := by
      rw [← zpow_natCast]; rfl
    rw [this, pow_succ]
    ring
  rw [h3]
  linarith

/-- Below `10^18 / 128` wei the monetary field is within `2^-61` of the exact quotient. -/
theorem weiToEther_small (r : ℕ) (h : r < 7812500000000000) :
    ∃ v, weiToEther r = .fin v ∧ |v - (r : ℚ) / 10 ^ (18 : ℕ)| ≤ (2 : ℚ) ^ (-61 : ℤ) := by
  rcases Nat.eq_zero_or_pos r with h0 | hpos
  · subst h0
    refine ⟨0, ?_, ?_⟩
    · simp [weiToEther, parseIntHex, roundDouble, tenPow18, JSNumber.div]
    · simp only [Nat.cast_zero, zero_div, sub_self, abs_zero]
      positivity
  have hr1 : (1 : ℚ) ≤ r := by exact_mod_cast hpos
  have hr2 : (r : ℚ) < 7812500000000000 := by exact_mod_cast h
  have hten : (0 : ℚ) < 10 ^ (18 : ℕ) := by positivity
  have hx : (0 : ℚ) < (r : ℚ) / 10 ^ (18 : ℕ) := div_pos (by linarith) hten
  rw [weiToEther_of_exact r (parseIntHex_exact r (by omega))]
  unfold roundDouble
  rw [if_neg hx.ne', if_pos hx]
  set x := (r : ℚ) / 10 ^ (18 : ℕ) with hxdef
  set e := Int.log 2 x with hedef
  have hlo : (2 : ℚ) ^ e ≤ x := by
    have := Int.zpow_log_le_self (b := 2) (r := x) (by norm_num) hx
    exact_mod_cast this
  have hhi : x < (2 : ℚ) ^ (e + 1) := by
    have := Int.lt_zpow_succ_log_self (b := 2) (by norm_num) x
    exact_mod_cast this
  have hxlo : (2 : ℚ) ^ (-60 : ℤ) ≤ x := by
    rw [hxdef, le_div_iff₀ hten]
    have : (2 : ℚ) ^ (-60 : ℤ) * 10 ^ (18 : ℕ) ≤ 1 := by norm_num
    linarith
  have hxhi : x < (2 : ℚ) ^ (-7 : ℤ) := by
    rw [hxdef, div_lt_iff₀ hten]
    have : (2 : ℚ) ^ (-7 : ℤ) * 10 ^ (18 : ℕ) = 7812500000000000 := by norm_num
    rw [this]
    exact hr2
  have he1 : -60 ≤ e :=
    (Int.zpow_le_iff_le_log (b := 2) (by norm_num) hx).1 (by exact_mod_cast hxlo)
  have he2 : e < -7 :=
    (Int.lt_zpow_iff_log_lt (b := 2) (by norm_num) hx).1 (by exact_mod_cast hxhi)
  obtain ⟨v, hv, hdist⟩ := roundPos_close_ulp x e hlo hhi (by omega) (by omega)
  refine ⟨v, hv, le_trans hdist ?_⟩
  exact zpow_le_zpow_right₀ (by norm_num) (by omega)

/-- Below `10^18 / 128` wei distinct raw integers give distinct monetary fields. -/
theorem weiToEther_injective_small (r₁ r₂ : ℕ) (h₁ : r₁ < 7812500000000000)
    (h₂ : r₂ < 7812500000000000) (h : weiToEther r₁ = weiToEther r₂) : r₁ = r₂ := by
  obtain ⟨v₁, hv₁, hd₁⟩ := weiToEther_small r₁ h₁
  obtain ⟨v₂, hv₂, hd₂⟩ := weiToEther_small r₂ h₂
  rw [hv₁, hv₂] at h
  have hv : v₁ = v₂ := by injection h
  subst hv
  have hten : (0 : ℚ) < 10 ^ (18 : ℕ) := by positivity
  have hgap : (2 : ℚ) * (2 : ℚ) ^ (-61 : ℤ) < 1 / 10 ^ (18 : ℕ) := by norm_num
  have ha₁ := abs_le.1 hd₁
  have ha₂ := abs_le.1 hd₂
  by_contra hne
  rcases Nat.lt_or_gt_of_ne hne with hlt | hgt
  · have hq : (r₁ : ℚ) + 1 ≤ r₂ := by exact_mod_cast hlt
    have : (r₁ : ℚ) / 10 ^ (18 : ℕ) + 1 / 10 ^ (18 : ℕ) ≤ (r₂ : ℚ) / 10 ^ (18 : ℕ) := by
      rw [← add_div]
      exact div_le_div_of_nonneg_right hq hten.le
    linarith [ha₁.1, ha₁.2, ha₂.1, ha₂.2]
  · have hq : (r₂ : ℚ) + 1 ≤ r₁ := by exact_mod_cast hgt
    have : (r₂ : ℚ) / 10 ^ (18 : ℕ) + 1 / 10 ^ (18 : ℕ) ≤ (r₁ : ℚ) / 10 ^ (18 : ℕ) := by
      rw [← add_div]
      exact div_le_div_of_nonneg_right hq hten.le
    linarith [ha₁.1, ha₁.2, ha₂.1, ha₂.2]

/-! ## Arrays mapped by a callback that may throw -/

theorem arrayMap_ok_of_forall {α β : Type} (f : α → Except JSError β) (l : List α)
    (h : ∀ a ∈ l, ∃ b, f a = .ok b) :
    ∃ out, arrayMap f l = .ok out ∧ List.Forall₂ (fun a b => f a = .ok b) l out := by
  induction l with
  | nil => exact ⟨[], rfl, List.Forall₂.nil⟩
  | cons a l ih =>
    obtain ⟨b, hb⟩ := h a (List.mem_cons_self a l)
    obtain ⟨out, hout, hall⟩ := ih (fun x hx => h x (List.mem_cons_of_mem a hx))
    refine ⟨b :: out, ?_, List.Forall₂.cons hb hall⟩
    simp [arrayMap, hb, hout]

theorem forall₂_getElem {α β : Type} (R : α → β → Prop) (l : List α) (out : List β)
    (h : List.Forall₂ R l out) (j : ℕ) (hj : j < l.length) :
    ∃ a b, l[j]? = some a ∧ out[j]? = some b ∧ R a b := by
  induction h generalizing j with
  | nil => simp at hj
  | cons hab _ ih =>
    cases j with
    | zero => exact ⟨_, _, by simp, by simp, hab⟩
    | succ j =>
      obtain ⟨a, b, h1, h2, h3⟩ := ih j (by simpa using hj)
      exact ⟨a, b, by simpa using h1, by simpa using h2, h3⟩

theorem forall₂_reverse_index {α β : Type} (R : α → β → Prop) (l : List α) (out : List β)
    (h : List.Forall₂ R l out) :
    out.reverse.length = l.length ∧
      ∀ i, i < l.length →
        ∃ a b, l[l.length - 1 - i]? = some a ∧ out.reverse[i]? = some b ∧ R a b := by
  have hlen := h.length_eq
  refine ⟨by simp [hlen], ?_⟩
  intro i hi
  obtain ⟨a, b, h1, h2, h3⟩ := forall₂_getElem R l out h (l.length - 1 - i) (by omega)
  refine ⟨a, b, h1, ?_, h3⟩
  rw [List.getElem?_reverse (by omega), ← hlen]
  exact h2

/-- A callback that succeeds on every element yields the mapped array in reverse order. -/
theorem arrayMap_reverse {α β : Type} (f : α → Except JSError β) (l : List α)
    (h : ∀ a ∈ l, ∃ b, f a = .ok b) :
    ∃ out, (arrayMap f l).map List.reverse = .ok out ∧ out.length = l.length ∧
      ∀ i, i < l.length →
        ∃ a b, l[l.length - 1 - i]? = some a ∧ out[i]? = some b ∧ f a = .ok b := by
  obtain ⟨mapped, hm, hall⟩ := arrayMap_ok_of_forall f l h
  obtain ⟨hlen, hidx⟩ := forall₂_reverse_index _ l mapped hall
  exact ⟨mapped.reverse, by rw [hm]; rfl, hlen, hidx⟩

/-! ## The normalizers on records whose integer fields are safe integers -/

theorem toNumber_ok (n : ℕ) (h : n < 2 ^ 53) : toNumber n = .ok n := by
  unfold toNumber
  rw [if_pos h]

theorem toNumber_overflow (n : ℕ) (h : 2 ^ 53 ≤ n) :
    toNumber n = .error (.ethers "NUMERIC_FAULT" "overflow") := by
  unfold toNumber
  rw [if_neg (by omega)]

theorem normalizeProject_ok (tz : ℤ → ℤ) (p : RawProject)
    (h : p.id < 2 ^ 53 ∧ p.timestamp < 2 ^ 53 ∧ p.expiresAt < 2 ^ 53 ∧ p.backers < 2 ^ 53) :
    normalizeProject tz p = .ok
      { id := p.id
        owner := toLowerCase p.owner
        title := p.title
        description := p.description
        timestamp := getTime (timeClip (.fin p.timestamp))
        expiresAt := getTime (timeClip (.fin p.expiresAt))
        date := toDate tz ((JSNumber.fin p.expiresAt).mul (.fin 1000))
        imageURL := p.imageURL
        raised := weiToEther p.raised
        cost := weiToEther p.cost
        backers := p.backers
        status := p.status } := by
  obtain ⟨h1, h2, h3, h4⟩ := h
  unfold normalizeProject
  rw [toNumber_ok _ h1, toNumber_ok _ h2, toNumber_ok _ h3, toNumber_ok _ h4]
  rfl

theorem normalizeBacker_ok (b : RawBacker) (h : b.timestamp < 2 ^ 53) :
    normalizeBacker b = .ok
      { owner := toLowerCase b.owner
        refunded := b.refunded
        timestamp := toJSON (timeClip ((JSNumber.fin b.timestamp).mul (.fin 1000)))
        contribution := weiToEther b.contribution } := by
  unfold normalizeBacker
  rw [toNumber_ok _ h]
  rfl

theorem structuredProjects_eq (tz : ℤ → ℤ) (projects : List RawProject) :
    structuredProjects tz projects = (arrayMap (normalizeProject tz) projects).map List.reverse := by
  unfold structuredProjects
  cases arrayMap (normalizeProject tz) projects <;> rfl

theorem structuredBackers_eq (backers : List RawBacker) :
    structuredBackers backers = (arrayMap normalizeBacker backers).map List.reverse := by
  unfold structuredBackers
  cases arrayMap normalizeBacker backers <;> rfl

/-! ## Claims -/

/-- C1 (amended). For every list of raw ledger records whose integer-like fields (`id`,
`timestamp`, `expiresAt`, `backers` of a project; `timestamp` of a backer) are below `2^53`,
`structuredProjects` and `structuredBackers` each return a list of the same length whose
element at index `i` is the normalization of the raw record at index `n - 1 - i`; in
particular index `0` holds the normalization of the last raw record. -/
theorem structured_most_recent_first (tz : ℤ → ℤ) (projects : List RawProject)
    (backers : List RawBacker)
    (hp : ∀ p ∈ projects,
      p.id < 2 ^ 53 ∧ p.timestamp < 2 ^ 53 ∧ p.expiresAt < 2 ^ 53 ∧ p.backers < 2 ^ 53)
    (hb : ∀ b ∈ backers, b.timestamp < 2 ^ 53) :
    (∃ out, structuredProjects tz projects = .ok out ∧ out.length = projects.length ∧
      ∀ i, i < projects.length →
        ∃ raw norm, projects[projects.length - 1 - i]? = some raw ∧ out[i]? = some norm ∧
          normalizeProject tz raw = .ok norm) ∧
    (∃ out, structuredBackers backers = .ok out ∧ out.length = backers.length ∧
      ∀ i, i < backers.length →
        ∃ raw norm, backers[backers.length - 1 - i]? = some raw ∧ out[i]? = some norm ∧
          normalizeBacker raw = .ok norm) := by
  constructor
  · rw [structuredProjects_eq]
    exact arrayMap_reverse _ _ (fun p hmem => ⟨_, normalizeProject_ok tz p (hp p hmem)⟩)
  · rw [structuredBackers_eq]
    exact arrayMap_reverse _ _ (fun b hmem => ⟨_, normalizeBacker_ok b (hb b hmem)⟩)

/-- C1 (witness): the ordering theorem applied to a ledger of two projects and two backers. -/
theorem structured_most_recent_first_witness :
    (∀ p ∈ [scenarioProject, secondProject],
      p.id < 2 ^ 53 ∧ p.timestamp < 2 ^ 53 ∧ p.expiresAt < 2 ^ 53 ∧ p.backers < 2 ^ 53) ∧
    (∀ b ∈ sampleBackers, b.timestamp < 2 ^ 53) ∧
    ((∃ out, structuredProjects utc [scenarioProject, secondProject] = .ok out ∧
        out.length = [scenarioProject, secondProject].length ∧
        ∀ i, i < [scenarioProject, secondProject].length →
          ∃ raw norm,
            [scenarioProject, secondProject][[scenarioProject, secondProject].length - 1 - i]?
              = some raw ∧
            out[i]? = some norm ∧ normalizeProject utc raw = .ok norm) ∧
      (∃ out, structuredBackers sampleBackers = .ok out ∧ out.length = sampleBackers.length ∧
        ∀ i, i < sampleBackers.length →
          ∃ raw norm, sampleBackers[sampleBackers.length - 1 - i]? = some raw ∧
            out[i]? = some norm ∧ normalizeBacker raw = .ok norm)) :=
  ⟨by decide, by decide,
    structured_most_recent_first utc [scenarioProject, secondProject] sampleBackers
      (by decide) (by decide)⟩

/-- C1 (counterexample): a one-element ledger whose project carries an `expiresAt` of `2^64`
makes `structuredProjects` throw the `toNumber` overflow, so no list of length 1 is returned. -/
theorem structuredProjects_overflow_throws :
    structuredProjects utc [farFutureProject] = .error (.ethers "NUMERIC_FAULT" "overflow") ∧
    ¬ ∃ out, structuredProjects utc [farFutureProject] = .ok out ∧ out.length = 1 := by
  have h : structuredProjects utc [farFutureProject]
      = .error (.ethers "NUMERIC_FAULT" "overflow") := by
    rw [structuredProjects_eq]
    have hn : normalizeProject utc farFutureProject
        = .error (.ethers "NUMERIC_FAULT" "overflow") := by
      unfold normalizeProject
      rw [toNumber_ok _ (by decide), toNumber_ok _ (by decide),
        toNumber_overflow farFutureProject.expiresAt (by decide)]
      rfl
    simp [arrayMap, hn, Except.map]
  refine ⟨h, ?_⟩
  rintro ⟨out, hout, -⟩
  rw [h] at hout
  cases hout

/-! ## `parseEther` on well-formed decimal text -/

theorem digitsValue_foldl (l : List Char) (acc : ℕ) :
    l.foldl (fun acc c => 10 * acc + (c.toNat - 48)) acc
      = acc * 10 ^ l.length + digitsValue l := by
  induction l generalizing acc with
  | nil => simp [digitsValue]
  | cons c l ih =>
    unfold digitsValue
    simp only [List.foldl_cons, List.length_cons]
    rw [ih, ih (10 * 0 + (c.toNat - 48))]
    ring

theorem digitsValue_append (a b : List Char) :
    digitsValue (a ++ b) = digitsValue a * 10 ^ b.length + digitsValue b := by
  unfold digitsValue
  rw [List.foldl_append, digitsValue_foldl]
  rfl

theorem digitsValue_zeros (k : ℕ) : digitsValue (List.replicate k '0') = 0 := by
  induction k with
  | zero => rfl
  | succ k ih =>
    rw [List.replicate_succ]
    have := digitsValue_append ['0'] (List.replicate k '0')
    simp only [List.singleton_append] at this
    rw [this, ih]
    simp [digitsValue]

theorem digitsValue_pad (l : List Char) (k : ℕ) :
    digitsValue (l ++ List.replicate k '0') = digitsValue l * 10 ^ k := by
  rw [digitsValue_append, digitsValue_zeros]
  simp

theorem takeWhile_zero_eq_replicate (l : List Char) :
    l.takeWhile (fun c => c == '0') = List.replicate (l.takeWhile fun c => c == '0').length '0' := by
  apply List.eq_replicate_of_mem
  intro c hc
  have := List.mem_takeWhile_imp hc
  simpa using this

/-- The text is its trimmed form followed by the zeros that were removed. -/
theorem dropTrailingZeros_spec (l : List Char) :
    ∃ j, l = dropTrailingZeros l ++ List.replicate j '0' := by
  refine ⟨(l.reverse.takeWhile fun c => c == '0').length, ?_⟩
  unfold dropTrailingZeros
  have h := List.takeWhile_append_dropWhile (fun c => c == '0') l.reverse
  have h2 := congrArg List.reverse h
  rw [List.reverse_append, List.reverse_reverse] at h2
  conv_lhs => rw [← h2]
  congr 1
  conv_lhs => rw [takeWhile_zero_eq_replicate]
  rw [List.reverse_replicate]

theorem splitDot_ne_nil (l : List Char) : splitDot l ≠ [] := by
  induction l with
  | nil => simp [splitDot]
  | cons c l ih =>
    unfold splitDot
    split
    · simp
    · split <;> simp

theorem splitDot_no_dot (l : List Char) (h : ∀ c ∈ l, c ≠ '.') : splitDot l = [l] := by
  induction l with
  | nil => rfl
  | cons c l ih =>
    have hc : c ≠ '.' := h c (List.mem_cons_self c l)
    have hl := ih (fun x hx => h x (List.mem_cons_of_mem c hx))
    unfold splitDot
    rw [hl]
    simp [hc]

theorem splitDot_dot (w f : List Char) (hw : ∀ c ∈ w, c ≠ '.') :
    splitDot (w ++ '.' :: f) = w :: splitDot f := by
  induction w with
  | nil =>
    simp only [List.nil_append]
    rcases hsp : splitDot f with _ | ⟨p, ps⟩
    · exact absurd hsp (splitDot_ne_nil f)
    · rw [splitDot, hsp]
      simp
  | cons c w ih =>
    have hc : c ≠ '.' := hw c (List.mem_cons_self c w)
    have hl := ih (fun x hx => hw x (List.mem_cons_of_mem c hx))
    simp only [List.cons_append]
    rw [splitDot, hl]
    simp [hc]

theorem digit_ne_dot (c : Char) (h : c.isDigit = true) : c ≠ '.' := by
  rintro rfl
  exact absurd h (by decide)

theorem digit_ne_minus (c : Char) (h : c.isDigit = true) : c ≠ '-' := by
  rintro rfl
  exact absurd h (by decide)

theorem trimmed_pad (F : List Char) (hF : F.length ≤ 18) :
    (dropTrailingZeros F).length ≤ 18 ∧
    digitsValue ((if (dropTrailingZeros F).isEmpty then ['0'] else dropTrailingZeros F)
        ++ List.replicate
          (18 - (if (dropTrailingZeros F).isEmpty then ['0'] else dropTrailingZeros F).length) '0')
      = digitsValue F * 10 ^ (18 - F.length) := by
  obtain ⟨j, hj⟩ := dropTrailingZeros_spec F
  generalize dropTrailingZeros F = T at hj ⊢
  have hlen : F.length = T.length + j := by
    rw [hj]; simp
  have hval : digitsValue F = digitsValue T * 10 ^ j := by
    rw [hj, digitsValue_pad]
  refine ⟨by omega, ?_⟩
  rw [digitsValue_pad, hval]
  cases T with
  | nil => simp [digitsValue]
  | cons c T =>
    simp only [List.isEmpty_cons, Bool.false_eq_true, if_false]
    rw [mul_assoc, ← pow_add]
    congr 2
    simp only [List.length_cons] at hlen ⊢
    omega

/-- The tail of `parseFixed` computes `whole * 10^18 + fraction * 10^(18 - length)`. -/
theorem assembleWei_digits (w f : List Char) (hlen : f.length ≤ 18) :
    assembleWei false w f
      = .ok (((digitsValue w * 10 ^ 18 + digitsValue f * 10 ^ (18 - f.length) : ℕ)) : ℤ) := by
  have hw : digitsValue (if w.isEmpty then ['0'] else w) = digitsValue w := by
    cases w <;> simp [digitsValue]
  have hF : (if f.isEmpty then ['0'] else f).length ≤ 18 := by
    cases f with
    | nil => simp
    | cons c f => simpa using hlen
  obtain ⟨h1, h2⟩ := trimmed_pad (if f.isEmpty then ['0'] else f) hF
  have hf : digitsValue (if f.isEmpty then ['0'] else f)
      * 10 ^ (18 - (if f.isEmpty then ['0'] else f).length)
      = digitsValue f * 10 ^ (18 - f.length) := by
    cases f <;> simp [digitsValue]
  unfold assembleWei
  simp only
  rw [if_neg (by omega), hw, h2, hf]
  simp

/-- Well-formed decimal text passes every check of `parseFixed`. -/
theorem parseEther_wellFormed (whole fraction : List Char) (text : String)
    (hw : ∀ c ∈ whole, c.isDigit = true) (hf : ∀ c ∈ fraction, c.isDigit = true)
    (hlen : fraction.length ≤ 18) (hne : whole ≠ [] ∨ fraction ≠ [])
    (htext : text.data = whole ++ '.' :: fraction ∨ (fraction = [] ∧ text.data = whole)) :
    parseEther text
      = .ok (((digitsValue whole * 10 ^ 18
          + digitsValue fraction * 10 ^ (18 - fraction.length) : ℕ)) : ℤ) := by
  have hwdot : ∀ c ∈ whole, c ≠ '.' := fun c hc => digit_ne_dot c (hw c hc)
  have hfdot : ∀ c ∈ fraction, c ≠ '.' := fun c hc => digit_ne_dot c (hf c hc)
  have hhead : ∀ cs : List Char, (cs = whole ++ '.' :: fraction ∨ (fraction = [] ∧ cs = whole)) →
      ¬ cs.head? = some '-' := by
    intro cs hcs hh
    cases whole with
    | nil =>
      rcases hcs with h | ⟨h1, h2⟩
      · rw [h] at hh; simp at hh
      · rcases hne with h | h
        · exact h rfl
        · exact h h1
    | cons c w =>
      have hc := digit_ne_minus c (hw c (List.mem_cons_self c w))
      rcases hcs with h | ⟨_, h⟩ <;> · rw [h] at hh; simp at hh; exact hc hh
  have hall : ∀ cs : List Char, (cs = whole ++ '.' :: fraction ∨ (fraction = [] ∧ cs = whole)) →
      (!cs.isEmpty && cs.all fun c => c.isDigit || c == '.') = true := by
    intro cs hcs
    rcases hcs with h | ⟨h1, h2⟩
    · subst h
      simp only [Bool.and_eq_true, Bool.not_eq_true', List.all_eq_true, Bool.or_eq_true,
        beq_iff_eq]
      refine ⟨by cases whole <;> rfl, ?_⟩
      intro c hc
      rcases List.mem_append.1 hc with h | h
      · exact Or.inl (hw c h)
      · rcases List.mem_cons.1 h with h | h
        · exact Or.inr h
        · exact Or.inl (hf c h)
    · rw [h2]
      have hwne : whole ≠ [] := by
        rcases hne with h | h
        · exact h
        · exact absurd h1 h
      simp only [Bool.and_eq_true, Bool.not_eq_true', List.all_eq_true, Bool.or_eq_true,
        beq_iff_eq]
      refine ⟨by cases whole with
        | nil => exact absurd rfl hwne
        | cons c w => rfl, fun c hc => Or.inl (hw c hc)⟩
  have hnotdot : ∀ cs : List Char,
      (cs = whole ++ '.' :: fraction ∨ (fraction = [] ∧ cs = whole)) → cs ≠ ['.'] := by
    intro cs hcs hdot
    rcases hcs with h | ⟨h1, h2⟩
    · rw [h] at hdot
      cases whole with
      | nil =>
        simp at hdot
        rcases hne with h | h
        · exact h rfl
        · exact h hdot
      | cons c w =>
        simp at hdot
    · rw [h2] at hdot
      rw [hdot] at hwdot
      exact hwdot '.' (by simp) rfl
  unfold parseEther
  simp only
  have hm : matchesDecimal text.data = true := by
    unfold matchesDecimal
    simp only
    rw [if_neg (hhead _ htext)]
    exact hall _ htext
  rw [hm]
  simp only [Bool.not_true, Bool.false_eq_true, if_false]
  rw [decide_eq_false (hhead _ htext)]
  simp only [Bool.false_eq_true, if_false]
  rw [if_neg (hnotdot _ htext)]
  rcases htext with h | ⟨h1, h2⟩
  · rw [h, splitDot_dot whole fraction hwdot, splitDot_no_dot fraction hfdot]
    exact assembleWei_digits whole fraction hlen
  · rw [h2, splitDot_no_dot whole hwdot]
    subst h1
    exact assembleWei_digits whole [] hlen

/-- C2 (amended). For every well-formed non-negative decimal text (digits `whole`, optionally
a point and at most 18 digits `fraction`), `parseEther` yields exactly the amount times
`10^18`; converting that integer back the way the normalizers do yields a binary64 number
within a relative `2^-51` of the amount (for integers up to `2^1023`), which is the binary64
number nearest to the amount whenever the integer is itself a binary64 value (in particular
whenever it is at most `2^53`), and is the amount itself when the amount is a binary64 value
too. -/
theorem parseEther_roundtrip (whole fraction : List Char) (text : String)
    (hw : ∀ c ∈ whole, c.isDigit = true) (hf : ∀ c ∈ fraction, c.isDigit = true)
    (hlen : fraction.length ≤ 18) (hne : whole ≠ [] ∨ fraction ≠ [])
    (htext : text.data = whole ++ '.' :: fraction ∨ (fraction = [] ∧ text.data = whole)) :
    ∃ wei : ℕ, parseEther text = .ok (wei : ℤ) ∧
      (wei : ℚ) = decimalValue whole fraction * 10 ^ (18 : ℕ) ∧
      ((wei : ℚ) ≤ (2 : ℚ) ^ (1023 : ℕ) →
        ∃ x, weiToEther wei = .fin x ∧
          |x - decimalValue whole fraction| ≤ decimalValue whole fraction / 2 ^ (51 : ℕ)) ∧
      (parseIntHex wei = .fin wei →
        weiToEther wei = roundDouble (decimalValue whole fraction)) ∧
      (wei ≤ 2 ^ 53 → weiToEther wei = roundDouble (decimalValue whole fraction)) ∧
      (parseIntHex wei = .fin wei →
        roundDouble (decimalValue whole fraction) = .fin (decimalValue whole fraction) →
        weiToEther wei = .fin (decimalValue whole fraction)) := by
  have hval : (((digitsValue whole * 10 ^ 18
      + digitsValue fraction * 10 ^ (18 - fraction.length) : ℕ)) : ℚ)
      = decimalValue whole fraction * 10 ^ (18 : ℕ) := by
    unfold decimalValue
    have hpow : (10 : ℚ) ^ (18 : ℕ) = 10 ^ fraction.length * 10 ^ (18 - fraction.length) := by
      rw [← pow_add]; congr 1; omega
    push_cast
    rw [add_mul]
    congr 1
    rw [hpow]
    field_simp
    ring
  have hquot : ∀ n : ℕ, (n : ℚ) = decimalValue whole fraction * 10 ^ (18 : ℕ) →
      (n : ℚ) / 10 ^ (18 : ℕ) = decimalValue whole fraction := by
    intro n hn
    rw [hn]
    field_simp
  refine ⟨_, parseEther_wellFormed whole fraction text hw hf hlen hne htext, hval, ?_, ?_, ?_, ?_⟩
  · intro hle
    obtain ⟨x, hx, hclose⟩ := weiToEther_close _ hle
    rw [hquot _ hval] at hclose
    exact ⟨x, hx, hclose⟩
  · intro hexact
    rw [weiToEther_of_exact _ hexact, hquot _ hval]
  · intro hle
    rw [weiToEther_of_exact _ (parseIntHex_exact _ hle), hquot _ hval]
  · intro hexact hv
    rw [weiToEther_of_exact _ hexact, hquot _ hval, hv]

/-- C2 (witness): the round-trip theorem at the text `2.5`. -/
theorem parseEther_roundtrip_witness :
    (∀ c ∈ ['2'], c.isDigit = true) ∧ (∀ c ∈ ['5'], c.isDigit = true) ∧
    ['5'].length ≤ 18 ∧
    ∃ wei : ℕ, parseEther "2.5" = .ok (wei : ℤ) ∧
      (wei : ℚ) = decimalValue ['2'] ['5'] * 10 ^ (18 : ℕ) ∧
      ((wei : ℚ) ≤ (2 : ℚ) ^ (1023 : ℕ) →
        ∃ x, weiToEther wei = .fin x ∧
          |x - decimalValue ['2'] ['5']| ≤ decimalValue ['2'] ['5'] / 2 ^ (51 : ℕ)) ∧
      (parseIntHex wei = .fin wei → weiToEther wei = roundDouble (decimalValue ['2'] ['5'])) ∧
      (wei ≤ 2 ^ 53 → weiToEther wei = roundDouble (decimalValue ['2'] ['5'])) ∧
      (parseIntHex wei = .fin wei →
        roundDouble (decimalValue ['2'] ['5']) = .fin (decimalValue ['2'] ['5']) →
        weiToEther wei = .fin (decimalValue ['2'] ['5'])) :=
  ⟨by decide, by decide, by decide,
    parseEther_roundtrip ['2'] ['5'] "2.5" (by decide) (by decide) (by decide)
      (Or.inl (by decide)) (Or.inl rfl)⟩

/-- C2 (counterexample): the amount `1.000000000000000065` has 18 fractional digits and is
accepted by `parseEther`, yet converting its fixed-point integer back gives `1 + 2^-52`, which
is neither the amount nor the binary64 number nearest to it (that number is `1`). -/
theorem roundtrip_not_identity :
    parseEther "1.000000000000000065" = .ok 1000000000000000065 ∧
    weiToEther 1000000000000000065 = .fin (1 + 1 / 2 ^ (52 : ℕ)) ∧
    (1 + 1 / 2 ^ (52 : ℕ) : ℚ) ≠ decimalValue ['1'] "000000000000000065".data ∧
    roundDouble (decimalValue ['1'] "000000000000000065".data) = .fin 1 := by
  have hv : decimalValue ['1'] "000000000000000065".data
      = 1000000000000000065 / 1000000000000000000 := by
    simp [decimalValue, digitsValue]
    norm_num
  refine ⟨rfl, weiToEther_sixty_five_wei, ?_, ?_⟩
  · rw [hv]; norm_num
  · rw [hv]
    have := roundDouble_near (1000000000000000065 / 1000000000000000000) 0 4503599627370496
      (by norm_num) (by norm_num) (by norm_num) (by norm_num [abs_lt]) (by norm_num)
    rw [this]
    norm_num

/-- C3 (amended). On records whose integer-like fields are safe integers the normalizers
return, and each monetary field (`cost`, `raised`, `contribution`, `totalDonations`) computed
from the raw integer `r` is `weiToEther r`: the binary64 number nearest to `r / 10^18` when
`r ≤ 2^53`, and for every `r` up to `2^1023` a finite number within a relative `2^-51` of
`r / 10^18`.  Distinct raw integers below `10^18 / 128` give distinct amounts. -/
theorem monetary_fields_precision (tz : ℤ → ℤ) (p : RawProject) (b : RawBacker) (s : RawStats)
    (hp : p.id < 2 ^ 53 ∧ p.timestamp < 2 ^ 53 ∧ p.expiresAt < 2 ^ 53 ∧ p.backers < 2 ^ 53)
    (hb : b.timestamp < 2 ^ 53)
    (hs : s.totalProjects < 2 ^ 53 ∧ s.totalBacking < 2 ^ 53) :
    ∃ P B S, normalizeProject tz p = .ok P ∧ normalizeBacker b = .ok B ∧
      structureStats s = .ok S ∧
      ∀ r x, (r, x) ∈ [(p.cost, P.cost), (p.raised, P.raised),
          (b.contribution, B.contribution), (s.totalDonations, S.totalDonations)] →
        x = weiToEther r ∧
        (r ≤ 2 ^ 53 → x = roundDouble ((r : ℚ) / 10 ^ (18 : ℕ))) ∧
        ((r : ℚ) ≤ (2 : ℚ) ^ (1023 : ℕ) →
          ∃ v, x = .fin v ∧
            |v - (r : ℚ) / 10 ^ (18 : ℕ)| ≤ (r : ℚ) / 10 ^ (18 : ℕ) / 2 ^ (51 : ℕ)) ∧
        (∀ r', r < 7812500000000000 → r' < 7812500000000000 → x = weiToEther r' → r = r') := by
  have hS : structureStats s = .ok
      { totalProjects := s.totalProjects, totalBacking := s.totalBacking,
        totalDonations := weiToEther s.totalDonations } := by
    unfold structureStats
    rw [toNumber_ok _ hs.1, toNumber_ok _ hs.2]
    rfl
  refine ⟨_, _, _, normalizeProject_ok tz p hp, normalizeBacker_ok b hb, hS, ?_⟩
  intro r x hmem
  have hx : x = weiToEther r := by
    simp only [List.mem_cons, Prod.mk.injEq, List.mem_singleton, List.not_mem_nil, or_false] at hmem
    rcases hmem with ⟨h1, h2⟩ | ⟨h1, h2⟩ | ⟨h1, h2⟩ | ⟨h1, h2⟩ <;> rw [h1, h2]
  subst hx
  exact ⟨rfl, fun hle => weiToEther_of_exact r (parseIntHex_exact r hle),
    fun hle => weiToEther_close r hle,
    fun r' hr hr' heq => weiToEther_injective_small r r' hr hr' heq⟩

/-- C3 (witness): the precision theorem on the scenario project, a sample backer and the
one-ether statistics. -/
theorem monetary_fields_precision_witness :
    (scenarioProject.id < 2 ^ 53 ∧ scenarioProject.timestamp < 2 ^ 53 ∧
      scenarioProject.expiresAt < 2 ^ 53 ∧ scenarioProject.backers < 2 ^ 53) ∧
    (∃ P B S, normalizeProject utc scenarioProject = .ok P ∧
      normalizeBacker ⟨"0xAAA1", false, 1700000100, 500000000000000000⟩ = .ok B ∧
      structureStats oneEtherStats = .ok S ∧
      ∀ r x, (r, x) ∈ [(scenarioProject.cost, P.cost), (scenarioProject.raised, P.raised),
          ((500000000000000000 : ℕ), B.contribution),
          (oneEtherStats.totalDonations, S.totalDonations)] →
        x = weiToEther r ∧
        (r ≤ 2 ^ 53 → x = roundDouble ((r : ℚ) / 10 ^ (18 : ℕ))) ∧
        ((r : ℚ) ≤ (2 : ℚ) ^ (1023 : ℕ) →
          ∃ v, x = .fin v ∧
            |v - (r : ℚ) / 10 ^ (18 : ℕ)| ≤ (r : ℚ) / 10 ^ (18 : ℕ) / 2 ^ (51 : ℕ)) ∧
        (∀ r', r < 7812500000000000 → r' < 7812500000000000 → x = weiToEther r' → r = r')) :=
  ⟨by decide,
    monetary_fields_precision utc scenarioProject ⟨"0xAAA1", false, 1700000100, 500000000000000000⟩
      oneEtherStats (by decide) (by decide) (by decide)⟩

/-- C3 (counterexample): the raw totals `10^18` and `10^18 + 1` are distinct, yet
`structureStats` gives both the same `totalDonations`, the number `1`, which is not
`(10^18 + 1) / 10^18`. -/
theorem distinct_raw_same_amount :
    structureStats oneEtherStats
      = .ok { totalProjects := 1, totalBacking := 1, totalDonations := .fin 1 } ∧
    structureStats oneEtherOneWeiStats
      = .ok { totalProjects := 1, totalBacking := 1, totalDonations := .fin 1 } ∧
    oneEtherStats.totalDonations ≠ oneEtherOneWeiStats.totalDonations ∧
    ((oneEtherOneWeiStats.totalDonations : ℚ) / 10 ^ (18 : ℕ) ≠ 1) := by
  refine ⟨?_, ?_, by decide, ?_⟩
  · unfold structureStats
    rw [toNumber_ok _ (by decide), toNumber_ok _ (by decide)]
    show Except.ok _ = _
    rw [show oneEtherStats.totalDonations = 1000000000000000000 from rfl, weiToEther_one_ether]
    rfl
  · unfold structureStats
    rw [toNumber_ok _ (by decide), toNumber_ok _ (by decide)]
    show Except.ok _ = _
    rw [show oneEtherOneWeiStats.totalDonations = 1000000000000000001 from rfl,
      weiToEther_one_ether_one_wei]
    rfl
  · rw [show oneEtherOneWeiStats.totalDonations = 1000000000000000001 from rfl]
    norm_num

theorem structuredProjects_singleton (tz : ℤ → ℤ) (p : RawProject) (P : Project)
    (h : normalizeProject tz p = .ok P) : structuredProjects tz [p] = .ok [P] := by
  rw [structuredProjects_eq]
  simp [arrayMap, h, Except.map]

/-- C4 (amended). `structuredProjects` on a single raw project with safe integer fields returns
a one-element list whose record carries the owner lowercased, the count of backers under the
key `backers` (there is no `backerCount` key) and the status code unchanged as a number; the
labels are produced later by `ProjectCard`, which shows a non-expired project's code 0, 1, 2, 3
as Open, Accepted, Reverted, Deleted and every other code as Paid.  On the scenario project the
record has id 1, owner `0xabc...`, cost 2.5, raised 1, backers 2 and status 0, rendered as
Open while not expired. -/
theorem project_normalization (tz : ℤ → ℤ) (raw : RawProject)
    (hraw : raw.id < 2 ^ 53 ∧ raw.timestamp < 2 ^ 53 ∧ raw.expiresAt < 2 ^ 53 ∧
      raw.backers < 2 ^ 53) :
    (∃ P, structuredProjects tz [raw] = .ok [P] ∧
      P.get "id" = .number (.fin raw.id) ∧
      P.get "owner" = .string (toLowerCase raw.owner) ∧
      P.get "cost" = .number (weiToEther raw.cost) ∧
      P.get "raised" = .number (weiToEther raw.raised) ∧
      P.get "backers" = .number (.fin raw.backers) ∧
      P.get "backerCount" = .undefined ∧
      P.get "status" = .number (.fin raw.status)) ∧
    (statusLabel false 0 = "Open" ∧ statusLabel false 1 = "Accepted" ∧
      statusLabel false 2 = "Reverted" ∧ statusLabel false 3 = "Deleted" ∧
      (∀ code, 4 ≤ code → statusLabel false code = "Paid") ∧
      (∀ code, statusLabel true code = "Expired")) ∧
    (∃ P, structuredProjects tz [scenarioProject] = .ok [P] ∧
      P.get "id" = .number (.fin 1) ∧
      P.get "owner" = .string "0xabc..." ∧
      P.get "cost" = .number (.fin (5 / 2)) ∧
      P.get "raised" = .number (.fin 1) ∧
      P.get "backers" = .number (.fin 2) ∧
      P.get "status" = .number (.fin 0) ∧
      statusLabel false P.status = "Open") := by
  refine ⟨?_, ?_, ?_⟩
  · refine ⟨_, structuredProjects_singleton tz raw _ (normalizeProject_ok tz raw hraw), ?_⟩
    simp [Project.get]
  · refine ⟨rfl, rfl, rfl, rfl, ?_, fun code => rfl⟩
    intro code hcode
    unfold statusLabel
    rw [if_neg (by simp), if_neg (by omega), if_neg (by omega), if_neg (by omega),
      if_neg (by omega)]
  · refine ⟨_, structuredProjects_singleton tz scenarioProject _
      (normalizeProject_ok tz scenarioProject (by decide)), ?_⟩
    have hcost : weiToEther scenarioProject.cost = .fin (5 / 2) := weiToEther_two_and_a_half
    have hraised : weiToEther scenarioProject.raised = .fin 1 := weiToEther_one_ether
    have howner : toLowerCase scenarioProject.owner = "0xabc..." := by decide
    simp only [Project.get, hcost, hraised, howner]
    refine ⟨?_, ?_, ?_, ?_, ?_, ?_, ?_⟩ <;> simp [scenarioProject, statusLabel]

/-- C4 (witness): the normalization theorem applied to the second sample project. -/
theorem project_normalization_witness :
    (secondProject.id < 2 ^ 53 ∧ secondProject.timestamp < 2 ^ 53 ∧
      secondProject.expiresAt < 2 ^ 53 ∧ secondProject.backers < 2 ^ 53) ∧
    ∃ P, structuredProjects utc [secondProject] = .ok [P] ∧
      P.get "owner" = .string (toLowerCase secondProject.owner) ∧
      P.get "backerCount" = .undefined ∧
      P.get "status" = .number (.fin secondProject.status) := by
  refine ⟨by decide, ?_⟩
  obtain ⟨⟨P, h, _, howner, _, _, _, hcount, hstatus⟩, _⟩ :=
    project_normalization utc secondProject (by decide)
  exact ⟨P, h, howner, hcount, hstatus⟩

/-- C4 (counterexample): on the scenario project the normalized record has no `backerCount`
property and its `status` is the number 0, not the label `Open`. -/
theorem scenario_status_is_code :
    (∃ P, structuredProjects utc [scenarioProject] = .ok [P] ∧
      P.get "backerCount" = .undefined ∧ P.get "status" = .number (.fin 0)) ∧
    ¬ ∃ P, structuredProjects utc [scenarioProject] = .ok [P] ∧
      P.get "backerCount" = .number (.fin 2) ∧ P.get "status" = .string "Open" := by
  have h := structuredProjects_singleton utc scenarioProject _
    (normalizeProject_ok utc scenarioProject (by decide))
  constructor
  · refine ⟨_, h, ?_, ?_⟩ <;> simp [Project.get, scenarioProject]
  · rintro ⟨P, hP, hcount, -⟩
    rw [h] at hP
    injection hP with hP
    injection hP with hP
    subst hP
    simp [Project.get] at hcount

/-! ## The gateway -/

theorem parseEther_nonNumeric (amount : String) (h : matchesDecimal amount.data = false) :
    parseEther amount = .error (.ethers "INVALID_ARGUMENT" "invalid decimal value") := by
  unfold parseEther
  simp [h]

/-- With a provider present, resolving the handle either builds the signer-bound contract or
reads the cached entry, and touches nothing but the trace. -/
theorem getEtheriumContract_run (env : Env) (w : World) (heth : env.ethereum = true) :
    getEtheriumContract env w
      = if truthy w.store.connectedAccount then
          (.ok (some Handle.signer), { w with trace := w.trace ++ [.build] })
        else (.ok w.store.contract, w) := by
  unfold getEtheriumContract
  by_cases h : truthy w.store.connectedAccount = true
  · simp [h, heth, getGlobalState, emit, bind, Run.bind, pure, Run.pure]
  · simp [h, getGlobalState, bind, Run.bind, pure, Run.pure]

/-- C5 (amended). With a provider present, for every id and every amount that `parseEther`
rejects (text that is not a decimal number, a lone point, several points, or more than 18
significant fractional digits), `backProject` rejects with the `Error('No ethereum object.')`
thrown by `reportError`, after resolving the handle and before any contract method is invoked:
the only effects are the construction of the signer-bound contract (when an account is
connected) and the log of the conversion error; the store and `tx` are unchanged. -/
theorem backProject_rejected_amount (env : Env) (id : ℕ) (amount : String) (w : World)
    (e : JSError) (heth : env.ethereum = true) (hbad : parseEther amount = .error e) :
    backProject env id amount w
      = (.error (.error "No ethereum object."),
          { w with trace := w.trace
              ++ (if truthy w.store.connectedAccount then [Event.build] else [])
              ++ [.logError e] }) ∧
    (∀ ev ∈ (if truthy w.store.connectedAccount then [Event.build] else []) ++ [.logError e],
      (∀ h c, ev ≠ .submit h c) ∧ (∀ t, ev ≠ .wait t) ∧ (∀ h q, ev ≠ .read h q)) := by
  constructor
  · unfold backProject
    by_cases h : truthy w.store.connectedAccount = true
    · simp [Run.tryCatch, heth, bind, Run.bind, getGlobalState, getEtheriumContract_run, h, hbad,
        Run.ofExcept, reportError, emit, Run.throw]
    · simp [Run.tryCatch, heth, bind, Run.bind, getGlobalState, getEtheriumContract_run, h, hbad,
        Run.ofExcept, reportError, emit, Run.throw]
  · intro ev hev
    by_cases h : truthy w.store.connectedAccount = true
    · simp [h] at hev
      rcases hev with rfl | rfl <;> simp
    · simp [h] at hev
      subst hev
      simp

/-- C5 (witness): the amount `abc` on the connected page. -/
theorem backProject_rejected_amount_witness :
    demoEnv.ethereum = true ∧
    parseEther "abc" = .error (.ethers "INVALID_ARGUMENT" "invalid decimal value") ∧
    backProject demoEnv 1 "abc" connectedWorld
      = (.error (.error "No ethereum object."),
          { connectedWorld with trace := connectedWorld.trace
              ++ (if truthy connectedWorld.store.connectedAccount then [Event.build] else [])
              ++ [.logError (.ethers "INVALID_ARGUMENT" "invalid decimal value")] }) :=
  ⟨rfl, rfl, (backProject_rejected_amount demoEnv 1 "abc" connectedWorld _ rfl rfl).1⟩

/-- C5 (counterexample): on the connected page the negative amount `-1` passes the conversion
(`parseEther` gives `-10^18`) and `contract.backProject` is invoked with it, so the first
failure comes from the contract call itself, after the handle has been used; and the
non-numeric amount `abc` is rejected with the generic `Error('No ethereum object.')`, whose
name is `Error`, not `InvalidAmountError`. -/
theorem backProject_negative_reaches_contract :
    parseEther "-1" = .ok (-1000000000000000000) ∧
    backProject strictEnv 1 "-1" connectedWorld
      = (.error (.error "No ethereum object."),
          { connectedWorld with
            trace := [.build,
              .submit .signer (.backProject 1 (some "0xabc1") (-1000000000000000000)),
              .logError (.ethers "INVALID_ARGUMENT" "invalid hex string")] }) ∧
    (backProject strictEnv 1 "abc" connectedWorld).1 = .error (.error "No ethereum object.") ∧
    JSError.name (.error "No ethereum object.") ≠ some "InvalidAmountError" := by
  refine ⟨rfl, rfl, rfl, by decide⟩

/-- C6 (amended). When no wallet provider is present, every write operation, whatever its
arguments, shows the alert `Please install Metamask` and resolves without failing; it resolves
no handle, submits no contract call and leaves the store, `tx` and the listeners unchanged. -/
theorem write_without_provider (env : Env) (op : WriteOp) (w : World)
    (h : env.ethereum = false) :
    op.run env w
      = (.ok (), { w with trace := w.trace ++ [.alert "Please install Metamask"] }) := by
  cases op <;>
    simp [WriteOp.run, createProject, updateProject, deleteProject, backProject, payoutProject,
      Run.tryCatch, h, emit]

/-- C6 (witness): creating a project from a browser without a wallet. -/
theorem write_without_provider_witness :
    noWalletEnv.ethereum = false ∧
    (WriteOp.create "Well" "A village well" "https://example.org/well.png" "2.5"
        (.fin 1735689600)).run noWalletEnv World.initial
      = (.ok (), { World.initial with
          trace := World.initial.trace ++ [.alert "Please install Metamask"] }) :=
  ⟨rfl, write_without_provider noWalletEnv _ World.initial rfl⟩

/-- C6 (counterexample): without a provider `deleteProject(1)` resolves; it does not reject
with any error, let alone a `WalletUnavailableError`. -/
theorem write_without_provider_resolves :
    (deleteProject noWalletEnv 1 World.initial).1 = .ok () ∧
    ¬ ∃ e, (deleteProject noWalletEnv 1 World.initial).1 = .error e := by
  refine ⟨rfl, ?_⟩
  rintro ⟨e, he⟩
  have h : (deleteProject noWalletEnv 1 World.initial).1 = .ok () := rfl
  rw [h] at he
  cases he

/-- C7 (amended). `getEtheriumContract` never fails for want of an account or of a cached
handle.  When `connectedAccount` is absent (or the empty string) it returns the `contract`
entry of the store as it is: the cached handle when there is one, and `undefined` when there is
none.  When `connectedAccount` is a non-empty string and a provider is present it builds and
returns a fresh signer-bound handle. -/
theorem getEtheriumContract_cases (env : Env) (w : World) :
    (truthy w.store.connectedAccount = false → w.store.contract = none →
      getEtheriumContract env w = (.ok none, w)) ∧
    (∀ h, truthy w.store.connectedAccount = false → w.store.contract = some h →
      getEtheriumContract env w = (.ok (some h), w)) ∧
    (truthy w.store.connectedAccount = true → env.ethereum = true →
      getEtheriumContract env w
        = (.ok (some Handle.signer), { w with trace := w.trace ++ [.build] })) := by
  refine ⟨fun h hc => ?_, fun c h hc => ?_, fun h heth => ?_⟩
  · unfold getEtheriumContract
    simp [h, hc, getGlobalState, bind, Run.bind, pure, Run.pure]
  · unfold getEtheriumContract
    simp [h, hc, getGlobalState, bind, Run.bind, pure, Run.pure]
  · rw [getEtheriumContract_run env w heth]
    simp [h]

/-- C7 (witness): the handle resolved on the freshly loaded page and on the connected page. -/
theorem getEtheriumContract_cases_witness :
    (truthy World.initial.store.connectedAccount = false ∧
      World.initial.store.contract = none ∧
      getEtheriumContract demoEnv World.initial = (.ok none, World.initial)) ∧
    (truthy connectedWorld.store.connectedAccount = true ∧ demoEnv.ethereum = true ∧
      getEtheriumContract demoEnv connectedWorld
        = (.ok (some Handle.signer),
            { connectedWorld with trace := connectedWorld.trace ++ [.build] })) :=
  ⟨⟨rfl, rfl, (getEtheriumContract_cases demoEnv World.initial).1 rfl rfl⟩,
    ⟨rfl, rfl, (getEtheriumContract_cases demoEnv connectedWorld).2.2 rfl rfl⟩⟩

/-- C7 (counterexample): with no connected account and nothing cached, `getEtheriumContract`
resolves with `undefined` instead of failing. -/
theorem getEtheriumContract_returns_undefined :
    World.initial.store.connectedAccount = none ∧ World.initial.store.contract = none ∧
    getEtheriumContract demoEnv World.initial = (.ok none, World.initial) ∧
    ¬ ∃ e, (getEtheriumContract demoEnv World.initial).1 = .error e := by
  refine ⟨rfl, rfl, rfl, ?_⟩
  rintro ⟨e, he⟩
  have h : (getEtheriumContract demoEnv World.initial).1 = .ok none := rfl
  rw [h] at he
  cases he

/-! ### Order of effects of the write operations -/

/-- `createProject` on an accepted transaction: resolve, submit, wait, then `loadProjects`. -/
theorem createProject_order (env : Env) (title description imageURL cost : String)
    (expiresAt : JSNumber) (w : World) (wei : ℤ) (t : Tx)
    (heth : env.ethereum = true) (hacc : truthy w.store.connectedAccount = true)
    (hcost : parseEther cost = .ok wei)
    (hsub : env.submit .signer (.createProject title description imageURL wei expiresAt) = .ok t)
    (hwait : env.wait t = .ok ()) :
    createProject env title description imageURL cost expiresAt w
      = Run.tryCatch (loadProjects env) reportError
          { w with
            tx := some t
            trace := w.trace ++ [.build,
              .submit .signer (.createProject title description imageURL wei expiresAt),
              .wait t] } := by
  unfold createProject
  simp [Run.tryCatch, heth, bind, Run.bind, getEtheriumContract_run, hacc, hcost, Run.ofExcept,
    submitCall, emit, hsub, setTx, awaitTx, hwait]

/-- `updateProject` on an accepted transaction: resolve, submit, wait, then `loadProject(id)`. -/
theorem updateProject_order (env : Env) (id : ℕ) (title description imageURL : String)
    (expiresAt : JSNumber) (w : World) (t : Tx)
    (heth : env.ethereum = true) (hacc : truthy w.store.connectedAccount = true)
    (hsub : env.submit .signer (.updateProject id title description imageURL expiresAt) = .ok t)
    (hwait : env.wait t = .ok ()) :
    updateProject env id title description imageURL expiresAt w
      = Run.tryCatch (loadProject env id) reportError
          { w with
            tx := some t
            trace := w.trace ++ [.build,
              .submit .signer (.updateProject id title description imageURL expiresAt),
              .wait t] } := by
  unfold updateProject
  simp [Run.tryCatch, heth, bind, Run.bind, getEtheriumContract_run, hacc, Run.ofExcept,
    submitCall, emit, hsub, setTx, awaitTx, hwait]

/-- `backProject` on an accepted transaction: resolve, submit, wait, then `getBackers(id)`. -/
theorem backProject_order (env : Env) (id : ℕ) (amount : String) (w : World) (wei : ℤ) (t : Tx)
    (heth : env.ethereum = true) (hacc : truthy w.store.connectedAccount = true)
    (hamount : parseEther amount = .ok wei)
    (hsub : env.submit .signer (.backProject id w.store.connectedAccount wei) = .ok t)
    (hwait : env.wait t = .ok ()) :
    backProject env id amount w
      = Run.tryCatch (getBackers env id) reportError
          { w with
            tx := some t
            trace := w.trace ++ [.build,
              .submit .signer (.backProject id w.store.connectedAccount wei), .wait t] } := by
  unfold backProject
  simp [Run.tryCatch, heth, bind, Run.bind, getGlobalState, getEtheriumContract_run, hacc,
    hamount, Run.ofExcept, submitCall, emit, hsub, setTx, awaitTx, hwait]

/-- `payoutProject` on an accepted transaction: resolve, submit, wait, then `getBackers(id)`. -/
theorem payoutProject_order (env : Env) (id : ℕ) (w : World) (t : Tx)
    (heth : env.ethereum = true) (hacc : truthy w.store.connectedAccount = true)
    (hsub : env.submit .signer (.payOutProject id w.store.connectedAccount) = .ok t)
    (hwait : env.wait t = .ok ()) :
    payoutProject env id w
      = Run.tryCatch (getBackers env id) reportError
          { w with
            tx := some t
            trace := w.trace ++ [.build,
              .submit .signer (.payOutProject id w.store.connectedAccount), .wait t] } := by
  unfold payoutProject
  simp [Run.tryCatch, heth, bind, Run.bind, getGlobalState, getEtheriumContract_run, hacc,
    Run.ofExcept, submitCall, emit, hsub, setTx, awaitTx, hwait]

/-- C8 (the code at the failing input). On the connected page with a ledger that accepts the
call, `deleteProject(1)` resolves right after `contract.deleteProject(1)` has been submitted:
its whole trace is the construction of the handle and the submission, with no `tx.wait()` and
no reload, and `tx` is left unassigned; on the same page `updateProject` does wait. -/
theorem deleteProject_returns_before_confirmation :
    deleteProject demoEnv 1 connectedWorld
      = (.ok (), { connectedWorld with
          trace := [.build, .submit .signer (.deleteProject 1)] }) ∧
    (∀ t, Event.wait t ∉ (deleteProject demoEnv 1 connectedWorld).2.trace) ∧
    (deleteProject demoEnv 1 connectedWorld).2.tx = none ∧
    Event.wait ⟨7⟩ ∈
      (updateProject demoEnv 1 "Well" "A deeper well" "https://example.org/well.png"
        (.fin 1735689600) connectedWorld).2.trace := by
  have h : deleteProject demoEnv 1 connectedWorld
      = (.ok (), { connectedWorld with
          trace := [.build, .submit .signer (.deleteProject 1)] }) := rfl
  refine ⟨h, ?_, ?_, ?_⟩
  · intro t
    rw [h]
    simp
  · rw [h]
    rfl
  · have h2 : (updateProject demoEnv 1 "Well" "A deeper well" "https://example.org/well.png"
        (.fin 1735689600) connectedWorld).2.trace
        = [.build, .submit .signer (.updateProject 1 "Well" "A deeper well"
            "https://example.org/well.png" (.fin 1735689600)), .wait ⟨7⟩, .build,
            .read .signer (.getProject 1)] := rfl
    rw [h2]
    simp

/-- C9. With a provider present that reports no authorized account, `isWallectConnected`
resolves without throwing, leaves `connectedAccount` absent and shows the notice
`Please connect wallet.` exactly once (the trace grows by the account request, that one
alert and the console line). -/
theorem isWallectConnected_no_accounts (env : Env) (w : World)
    (heth : env.ethereum = true) (hacc : env.accounts = .ok []) :
    ∃ w', isWallectConnected env w = (.ok (), w') ∧
      w'.store.connectedAccount = none ∧
      w'.trace = w.trace
        ++ [.request "eth_accounts", .alert "Please connect wallet.", .log "No accounts found."] ∧
      (w'.trace.drop w.trace.length).count (.alert "Please connect wallet.") = 1 := by
  refine ⟨{ w with
      store := { w.store with connectedAccount := none }
      listeners := w.listeners ++ [.chainChanged, .accountsChanged []]
      trace := w.trace ++ [.request "eth_accounts", .alert "Please connect wallet.",
        .log "No accounts found."] }, ?_, rfl, rfl, ?_⟩
  · unfold isWallectConnected
    simp [Run.tryCatch, heth, hacc, bind, Run.bind, emit, Run.ofExcept, setGlobalState,
      addListener, firstLower]
  · simp

/-- C9 (witness): the locked wallet on the freshly loaded page. -/
theorem isWallectConnected_no_accounts_witness :
    lockedEnv.ethereum = true ∧ lockedEnv.accounts = .ok [] ∧
    ∃ w', isWallectConnected lockedEnv World.initial = (.ok (), w') ∧
      w'.store.connectedAccount = none ∧
      w'.trace = World.initial.trace
        ++ [.request "eth_accounts", .alert "Please connect wallet.", .log "No accounts found."] ∧
      (w'.trace.drop World.initial.trace.length).count (.alert "Please connect wallet.") = 1 :=
  ⟨rfl, rfl, isWallectConnected_no_accounts lockedEnv World.initial rfl rfl⟩

/-- C10. When the `accountsChanged` handler registered by `isWallectConnected` runs to
completion against a provider that currently authorizes the accounts `current`, the store
ends with `connectedAccount` equal to the lowercase form of the first of them, or absent when
there is none, whatever account list the handler had captured. -/
theorem accountsChanged_sets_current (env : Env) (w : World) (captured current : List String)
    (heth : env.ethereum = true) (hacc : env.accounts = .ok current) :
    ∃ w', (Listener.accountsChanged captured).handle env w = (.ok (), w') ∧
      w'.store.connectedAccount = current.head?.map toLowerCase ∧
      (current = [] → w'.store.connectedAccount = none) := by
  have hrun : ∃ w', (Listener.accountsChanged captured).handle env w = (.ok (), w') ∧
      w'.store.connectedAccount = current.head?.map toLowerCase := by
    unfold Listener.handle isWallectConnected
    cases current with
    | nil =>
      simp [Run.tryCatch, heth, hacc, bind, Run.bind, emit, Run.ofExcept, setGlobalState,
        addListener, firstLower]
    | cons a rest =>
      simp [Run.tryCatch, heth, hacc, bind, Run.bind, emit, Run.ofExcept, setGlobalState,
        addListener, firstLower]
  obtain ⟨w', h1, h2⟩ := hrun
  refine ⟨w', h1, h2, ?_⟩
  intro hnil
  rw [h2, hnil]
  rfl

/-- C10 (witness): a handler that captured `0xOld` runs while the wallet authorizes `0xAbC1`. -/
theorem accountsChanged_sets_current_witness :
    demoEnv.ethereum = true ∧ demoEnv.accounts = .ok ["0xAbC1"] ∧
    ∃ w', (Listener.accountsChanged ["0xOld"]).handle demoEnv connectedWorld = (.ok (), w') ∧
      w'.store.connectedAccount = (["0xAbC1"].head?).map toLowerCase ∧
      (["0xAbC1"] = [] → w'.store.connectedAccount = none) :=
  ⟨rfl, rfl, accountsChanged_sets_current demoEnv connectedWorld ["0xOld"] ["0xAbC1"] rfl rfl⟩

/-! ## Date labels -/

theorem civil_bounds (days : ℤ) :
    1 ≤ (civil days).2.1 ∧ (civil days).2.1 ≤ 12 ∧
      1 ≤ (civil days).2.2 ∧ (civil days).2.2 ≤ 31 := by
  unfold civil
  simp only
  split_ifs <;> omega

theorem repr_length_four (n : ℕ) (h1 : 1000 ≤ n) (h2 : n ≤ 9999) :
    (Nat.repr n).length = 4 := by
  have hf : n + 1 = (n - 3) + 1 + 1 + 1 + 1 := by omega
  unfold Nat.repr Nat.toDigits
  rw [hf]
  simp only [Nat.toDigitsCore]
  have a1 : n / 10 ≠ 0 := by omega
  have a2 : n / 10 / 10 ≠ 0 := by omega
  have a3 : n / 10 / 10 / 10 ≠ 0 := by omega
  have a4 : n / 10 / 10 / 10 / 10 = 0 := by omega
  simp [a1, a2, a3, a4, List.asString]

/-- The source's two-digit rule, `x > 9 ? x : '0' + x`, pads a day or month number to two
characters. -/
theorem two_digits (n : ℤ) (h1 : 1 ≤ n) (h2 : n ≤ 31) :
    (if gtNine (some n) then showNumber (some n) else "0" ++ showNumber (some n))
        = padZero 2 n.natAbs ∧
      (padZero 2 n.natAbs).length = 2 := by
  interval_cases n <;> exact ⟨by decide, by decide⟩

/-- Shape of the label of a valid instant. -/
theorem toDate_valid (tz : ℤ → ℤ) (ms : JSNumber) (t : ℤ) (ht : timeClip ms = some t) :
    toDate tz ms
      = showNumber (some (civil (localTime tz t / 86400000)).1) ++ "-"
        ++ padZero 2 (civil (localTime tz t / 86400000)).2.1.natAbs ++ "-"
        ++ padZero 2 (civil (localTime tz t / 86400000)).2.2.natAbs := by
  obtain ⟨hm1, hm2, hd1, hd2⟩ := civil_bounds (localTime tz t / 86400000)
  have hmm := (two_digits _ hm1 (by omega)).1
  have hdd := (two_digits _ hd1 hd2).1
  unfold toDate
  simp only [ht, getDate, getMonth, getFullYear, Option.map_some', sub_add_cancel]
  rw [hmm, hdd]

/-- C11 (amended). For a millisecond instant in the range of `Date`, `toDate` returns the
host-local calendar year written without padding, a dash, the month (1-12) zero-padded to two
digits, a dash, and the day (1-31) zero-padded to two digits; the label is exactly 10
characters long (`YYYY-MM-DD`) for every local year from 1000 to 9999 and shorter for the years
0 to 999.  For an instant outside the range of `Date` the label is `NaN-0NaN-0NaN`. -/
theorem toDate_label (tz : ℤ → ℤ) (ms : JSNumber) :
    (timeClip ms = none → toDate tz ms = "NaN-0NaN-0NaN") ∧
    (∀ t, timeClip ms = some t →
      1 ≤ (civil (localTime tz t / 86400000)).2.1 ∧
      (civil (localTime tz t / 86400000)).2.1 ≤ 12 ∧
      1 ≤ (civil (localTime tz t / 86400000)).2.2 ∧
      (civil (localTime tz t / 86400000)).2.2 ≤ 31 ∧
      toDate tz ms
        = showNumber (some (civil (localTime tz t / 86400000)).1) ++ "-"
          ++ padZero 2 (civil (localTime tz t / 86400000)).2.1.natAbs ++ "-"
          ++ padZero 2 (civil (localTime tz t / 86400000)).2.2.natAbs ∧
      (1000 ≤ (civil (localTime tz t / 86400000)).1 →
        (civil (localTime tz t / 86400000)).1 ≤ 9999 → (toDate tz ms).length = 10) ∧
      (0 ≤ (civil (localTime tz t / 86400000)).1 →
        (civil (localTime tz t / 86400000)).1 < 1000 → (toDate tz ms).length < 10)) := by
  constructor
  · intro hnone
    unfold toDate
    simp only [hnone, getDate, getMonth, getFullYear, Option.map_none']
    decide
  · intro t ht
    obtain ⟨hm1, hm2, hd1, hd2⟩ := civil_bounds (localTime tz t / 86400000)
    have hlabel := toDate_valid tz ms t ht
    have hmm := (two_digits _ hm1 (by omega)).2
    have hdd := (two_digits _ hd1 hd2).2
    refine ⟨hm1, hm2, hd1, hd2, hlabel, ?_, ?_⟩
    · intro hy1 hy2
      have hyear : (showNumber (some (civil (localTime tz t / 86400000)).1)).length = 4 := by
        simp only [showNumber]
        rw [if_neg (by omega)]
        exact repr_length_four _ (by omega) (by omega)
      rw [hlabel]
      simp only [String.length_append, hyear, hmm, hdd]
      decide
    · intro hy1 hy2
      have hyear : (showNumber (some (civil (localTime tz t / 86400000)).1)).length ≤ 3 := by
        simp only [showNumber]
        rw [if_neg (by omega)]
        exact Nat.repr_length _ 3 (by norm_num) (by omega)
      rw [hlabel]
      simp only [String.length_append, hmm, hdd]
      have h1 : ("-" : String).length = 1 := by decide
      omega

/-- C11 (witness): the label of 2025-01-01T00:00:00Z on a host running on UTC. -/
theorem toDate_label_witness :
    timeClip (.fin 1735689600000) = some 1735689600000 ∧
    (civil (localTime utc 1735689600000 / 86400000)).1 = 2025 ∧
    (toDate utc (.fin 1735689600000)).length = 10 := by
  have ht : timeClip (.fin 1735689600000) = some 1735689600000 := by
    norm_num [timeClip, abs_le]
  exact ⟨ht, by decide,
    ((toDate_label utc (.fin 1735689600000)).2 1735689600000 ht).2.2.2.2.2.1
      (by decide) (by decide)⟩

/-- C11 (counterexample): on a UTC host the instant `-30641760000000` ms falls in the year 999
and is labelled `999-01-01`, nine characters with an unpadded year; and the instant `10^16` ms,
outside the range of `Date`, is labelled `NaN-0NaN-0NaN`. -/
theorem toDate_year_not_padded :
    timeClip (.fin (-30641760000000)) = some (-30641760000000) ∧
    (civil (localTime utc (-30641760000000) / 86400000)).1 = 999 ∧
    toDate utc (.fin (-30641760000000)) = "999-01-01" ∧
    (toDate utc (.fin (-30641760000000))).length = 9 ∧
    toDate utc (.fin 10000000000000000) = "NaN-0NaN-0NaN" := by
  have ht : timeClip (.fin (-30641760000000)) = some (-30641760000000) := by
    have hceil : ⌈(-30641760000000 : ℚ)⌉ = -30641760000000 := by
      rw [Int.ceil_eq_iff]
      norm_num
    norm_num [timeClip, abs_le, hceil]
  have hnone : timeClip (.fin 10000000000000000) = none := by
    norm_num [timeClip, abs_le]
  have hlabel : toDate utc (.fin (-30641760000000)) = "999-01-01" := by
    rw [toDate_valid utc _ _ ht]
    decide
  refine ⟨ht, by decide, hlabel, ?_, ?_⟩
  · rw [hlabel]
    decide
  · unfold toDate
    simp only [hnone, getDate, getMonth, getFullYear, Option.map_none']
    decide

/-! ## Timestamps entered in the creation form -/

theorem JSNumber.neg_neg (x : JSNumber) : x.neg.neg = x := by
  cases x <;> simp [JSNumber.neg]

theorem roundDouble_neg (q : ℚ) : roundDouble (-q) = (roundDouble q).neg := by
  rcases lt_trichotomy q 0 with h | h | h
  · have h2 : 0 < -q := neg_pos.2 h
    have h1 : -q ≠ 0 := h2.ne'
    have h3 : q ≠ 0 := h.ne
    have h4 : ¬ 0 < q := not_lt.2 h.le
    unfold roundDouble
    rw [if_neg h1, if_pos h2, if_neg h3, if_neg h4, JSNumber.neg_neg]
  · subst h
    simp [roundDouble, JSNumber.neg]
  · have h1 : -q ≠ 0 := by
      intro hc; linarith [neg_eq_zero.1 hc]
    have h2 : ¬ 0 < -q := by
      intro hc; linarith [neg_pos.1 hc]
    unfold roundDouble
    rw [if_neg h1, if_neg h2, if_neg h.ne', if_pos h, neg_neg]

/-- Every integer of magnitude at most `2^53` is a binary64 value. -/
theorem roundDouble_intCast_exact (k : ℤ) (h : |k| ≤ 2 ^ 53) :
    roundDouble (k : ℚ) = .fin k := by
  rcases le_total 0 k with hk | hk
  · obtain ⟨n, rfl⟩ := Int.eq_ofNat_of_zero_le hk
    have hn : n ≤ 2 ^ 53 := by
      rw [abs_of_nonneg hk] at h
      exact_mod_cast h
    simpa using roundDouble_natCast_exact n hn
  · obtain ⟨n, hn⟩ := Int.eq_ofNat_of_zero_le (neg_nonneg.2 hk)
    have hk' : k = -(n : ℤ) := by omega
    have hn' : n ≤ 2 ^ 53 := by
      rw [abs_of_nonpos hk, hn] at h
      exact_mod_cast h
    subst hk'
    push_cast
    rw [roundDouble_neg, roundDouble_natCast_exact n hn']
    rfl

theorem toTimestamp_some (parse : String → Option ℤ) (s : String) (ms : ℤ)
    (h : parse s = some ms) : toTimestamp parse s = roundDouble ((ms : ℚ) / 1000) := by
  unfold toTimestamp
  rw [h]
  simp [getTime, JSNumber.div]

/-- A positive number of milliseconds that is not a whole number of seconds stays a non-integer
after the division and its rounding. -/
theorem roundDouble_thousandth_pos (ms : ℤ) (hpos : 0 < ms) (hle : ms ≤ 8640000000000000)
    (hdiv : ¬ (1000 : ℤ) ∣ ms) :
    ∃ x, roundDouble ((ms : ℚ) / 1000) = .fin x ∧ ∀ k : ℤ, x ≠ (k : ℚ) := by
  have hms1 : (1 : ℚ) ≤ ms := by exact_mod_cast hpos
  have hms2 : (ms : ℚ) ≤ 8640000000000000 := by exact_mod_cast hle
  have hq : (0 : ℚ) < (ms : ℚ) / 1000 := by positivity
  set q := (ms : ℚ) / 1000 with hqdef
  set e := Int.log 2 q with hedef
  have hlo : (2 : ℚ) ^ e ≤ q := by
    have := Int.zpow_log_le_self (b := 2) (r := q) (by norm_num) hq
    exact_mod_cast this
  have hhi : q < (2 : ℚ) ^ (e + 1) := by
    have := Int.lt_zpow_succ_log_self (b := 2) (by norm_num) q
    exact_mod_cast this
  have hqlo : (2 : ℚ) ^ (-10 : ℤ) ≤ q := by
    rw [hqdef, le_div_iff₀ (by norm_num)]
    have : (2 : ℚ) ^ (-10 : ℤ) * 1000 ≤ 1 := by norm_num
    linarith
  have hqhi : q < (2 : ℚ) ^ (43 : ℤ) := by
    rw [hqdef, div_lt_iff₀ (by norm_num)]
    have : (8640000000000000 : ℚ) < (2 : ℚ) ^ (43 : ℤ) * 1000 := by norm_num
    linarith
  have he1 : -10 ≤ e :=
    (Int.zpow_le_iff_le_log (b := 2) (by norm_num) hq).1 (by exact_mod_cast hqlo)
  have he2 : e < 43 :=
    (Int.lt_zpow_iff_log_lt (b := 2) (by norm_num) hq).1 (by exact_mod_cast hqhi)
  obtain ⟨x, hx, hdist⟩ := roundPos_close_ulp q e hlo hhi (by omega) (by omega)
  have hsmall : (2 : ℚ) ^ (e - 53) ≤ (2 : ℚ) ^ (-11 : ℤ) :=
    zpow_le_zpow_right₀ (by norm_num) (by omega)
  refine ⟨x, ?_, ?_⟩
  · unfold roundDouble
    rw [if_neg hq.ne', if_pos hq, hx]
  · intro k hk
    have hne : ms - 1000 * k ≠ 0 := by
      intro hc
      exact hdiv ⟨k, by omega⟩
    have hgap : (1 : ℚ) ≤ |(ms : ℚ) - 1000 * k| := by
      have : (1 : ℤ) ≤ |ms - 1000 * k| := Int.one_le_abs hne
      exact_mod_cast this
    have hgap' : (1 : ℚ) / 1000 ≤ |q - k| := by
      have : q - k = ((ms : ℚ) - 1000 * k) / 1000 := by
        rw [hqdef]; ring
      rw [this, abs_div, abs_of_pos (by norm_num : (0 : ℚ) < 1000)]
      exact div_le_div_of_nonneg_right hgap (by norm_num)
    rw [hk, abs_sub_comm] at hdist
    have h11 : (2 : ℚ) ^ (-11 : ℤ) < 1 / 1000 := by norm_num
    exact absurd hgap' (not_le.2 (lt_of_le_of_lt (le_trans hdist hsmall) h11))

theorem digit_toNat_le (c : Char) (h : c.isDigit = true) : c.toNat - 48 ≤ 9 := by
  simp only [Char.isDigit, Bool.and_eq_true, decide_eq_true_eq] at h
  have h2 := h.2
  have : c.toNat ≤ 57 := by
    have := UInt32.le_def.1 h2
    simpa [Char.toNat] using this
  omega

theorem digitsValue_cons (c : Char) (l : List Char) :
    digitsValue (c :: l) = (c.toNat - 48) * 10 ^ l.length + digitsValue l := by
  have := digitsValue_append [c] l
  simp only [List.singleton_append] at this
  rw [this]
  simp [digitsValue]

theorem digitsValue_lt (l : List Char) (h : l.all Char.isDigit = true) :
    digitsValue l < 10 ^ l.length := by
  induction l with
  | nil => simp [digitsValue]
  | cons c l ih =>
    simp only [List.all_cons, Bool.and_eq_true] at h
    have h1 := digit_toNat_le c h.1
    have h2 := ih h.2
    rw [digitsValue_cons, List.length_cons, pow_succ]
    nlinarith [pow_pos (show 0 < 10 by norm_num) l.length]

theorem digitField_lt (cs : List Char) (start len v : ℕ) (h : digitField cs start len = some v) :
    v < 10 ^ len := by
  unfold digitField at h
  simp only at h
  split_ifs at h with hc
  injection h with h
  subst h
  have := digitsValue_lt _ hc.2
  rwa [hc.1] at this

theorem daysFromCivil_bound (y m d : ℕ) (hy : y < 10000) (hm1 : 1 ≤ m) (hm2 : m ≤ 12)
    (hd1 : 1 ≤ d) (hd2 : d ≤ 31) :
    |daysFromCivil y m d| ≤ 100000000 := by
  unfold daysFromCivil
  simp only
  rw [abs_le]
  split_ifs <;> constructor <;> omega

theorem daysInMonth_le (y m : ℕ) : daysInMonth y m ≤ 31 := by
  unfold daysInMonth
  split_ifs <;> omega

/-- A ten-character text accepted by `isoParse` is a calendar date, parsed to UTC midnight. -/
theorem isoParse_date (s : String) (ms : ℤ) (hlen : s.length = 10)
    (h : isoParse s = some ms) : (86400000 : ℤ) ∣ ms ∧ |ms| ≤ 8640000000000000 := by
  have hlen' : s.data.length = 10 := hlen
  unfold isoParse at h
  simp only [hlen', true_and] at h
  split_ifs at h with hdate h24
  · rcases hy : digitField s.data 0 4 with _ | year
    · simp [hy] at h
    rcases hm : digitField s.data 5 2 with _ | month
    · simp [hy, hm] at h
    rcases hd : digitField s.data 8 2 with _ | day
    · simp [hy, hm, hd] at h
    simp only [hy, hm, hd, Option.bind_eq_bind, Option.some_bind, utcTime] at h
    split_ifs at h with hrange
    injection h with h
    have hyear := digitField_lt _ _ _ _ hy
    have hdim := daysInMonth_le year month
    have hbound := daysFromCivil_bound year month day (by omega) hrange.1 hrange.2.1
      hrange.2.2.1 (by omega)
    rw [abs_le] at hbound
    subst h
    refine ⟨⟨daysFromCivil year month day, by push_cast; ring⟩, ?_⟩
    rw [abs_le]
    push_cast
    constructor <;> omega
  · exact absurd h24.1 (by decide)

/-- C12 (amended). `toTimestamp` never fails: for a text the host cannot parse it returns NaN,
and for a text parsed to `ms` milliseconds it returns the binary64 number nearest to
`ms / 1000`, without discarding the sub-second part.  For an instant in the range of `Date`
the result is the integer `ms / 1000 = floor(ms / 1000)` when `ms` is a whole number of
seconds, and is not an integer otherwise.  A date `YYYY-MM-DD`, as delivered by the form's
date input, is parsed to UTC midnight, so its timestamp is an integer. -/
theorem toTimestamp_cases (parse : String → Option ℤ) (s : String) :
    (parse s = none → toTimestamp parse s = .nan) ∧
    (∀ ms, parse s = some ms → toTimestamp parse s = roundDouble ((ms : ℚ) / 1000)) ∧
    (∀ ms, parse s = some ms → |ms| ≤ 8640000000000000 → (1000 : ℤ) ∣ ms →
      toTimestamp parse s = .fin ((ms / 1000 : ℤ) : ℚ)) ∧
    (∀ ms, parse s = some ms → |ms| ≤ 8640000000000000 → ¬ (1000 : ℤ) ∣ ms →
      ∃ x, toTimestamp parse s = .fin x ∧ ∀ k : ℤ, x ≠ (k : ℚ)) ∧
    (∀ ms, s.length = 10 → isoParse s = some ms →
      (86400000 : ℤ) ∣ ms ∧ toTimestamp isoParse s = .fin ((ms / 1000 : ℤ) : ℚ)) := by
  have hexact : ∀ (p : String → Option ℤ) (ms : ℤ), p s = some ms →
      |ms| ≤ 8640000000000000 → (1000 : ℤ) ∣ ms →
      toTimestamp p s = .fin ((ms / 1000 : ℤ) : ℚ) := by
    intro p ms h hrange hdiv
    obtain ⟨k, rfl⟩ := hdiv
    rw [toTimestamp_some p s _ h]
    have hk : |k| ≤ 2 ^ 53 := by
      have := abs_le.1 hrange
      rw [abs_le]
      constructor <;> omega
    have h1 : ((1000 * k : ℤ) : ℚ) / 1000 = (k : ℚ) := by
      push_cast; field_simp
    have h2 : (1000 * k) / 1000 = k := by omega
    rw [h1, h2]
    exact roundDouble_intCast_exact k hk
  refine ⟨?_, fun ms h => toTimestamp_some parse s ms h, hexact parse, ?_, ?_⟩
  · intro h
    unfold toTimestamp
    rw [h]
    rfl
  · intro ms h hrange hdiv
    rw [toTimestamp_some parse s ms h]
    have hne : ms ≠ 0 := by
      rintro rfl
      exact hdiv (dvd_zero _)
    rcases lt_or_gt_of_ne hne with hneg | hpos
    · have hdiv' : ¬ (1000 : ℤ) ∣ -ms := by
        intro hc
        exact hdiv ((Int.dvd_neg).1 hc)
      obtain ⟨x, hx, hxk⟩ := roundDouble_thousandth_pos (-ms) (by omega)
        (by have := abs_le.1 hrange; omega) hdiv'
      refine ⟨-x, ?_, ?_⟩
      · have : (ms : ℚ) / 1000 = -(((-ms : ℤ) : ℚ) / 1000) := by
          push_cast; ring
        rw [this, roundDouble_neg, hx]
        rfl
      · intro k hk
        apply hxk (-k)
        push_cast
        linarith
    · exact roundDouble_thousandth_pos ms hpos (by have := abs_le.1 hrange; omega) hdiv
  · intro ms hlen h
    obtain ⟨hdvd, hrange⟩ := isoParse_date s ms hlen h
    exact ⟨hdvd, hexact isoParse ms h hrange (dvd_trans ⟨86400, by norm_num⟩ hdvd)⟩

/-- C12 (witness): the date `2025-01-01` delivered by the date input. -/
theorem toTimestamp_cases_witness :
    "2025-01-01".length = 10 ∧ isoParse "2025-01-01" = some 1735689600000 ∧
    (86400000 : ℤ) ∣ 1735689600000 ∧
    toTimestamp isoParse "2025-01-01" = .fin ((1735689600000 / 1000 : ℤ) : ℚ) :=
  ⟨by decide, by decide,
    (toTimestamp_cases isoParse "2025-01-01").2.2.2.2 1735689600000 (by decide) (by decide)⟩

/-- C12 (counterexample): the text `tomorrow` is not a date and `toTimestamp` returns NaN for
it instead of failing, and `handleSubmit` hands that NaN to `contract.createProject` as
`expiresAt`; the instant `2025-01-01T00:00:00.500Z` gives `1735689600.5`, which is not an
integer. -/
theorem toTimestamp_nan_and_fraction :
    isoParse "tomorrow" = none ∧
    toTimestamp isoParse "tomorrow" = .nan ∧
    handleSubmit checkedEnv isoParse "Well" "A village well" "2.5" "tomorrow"
        "https://example.org/well.png" connectedWorld
      = (.error (.error "No ethereum object."),
          { connectedWorld with
            trace := [.build,
              .submit .signer (.createProject "Well" "A village well"
                "https://example.org/well.png" 2500000000000000000 .nan),
              .logError (.ethers "INVALID_ARGUMENT" "invalid BigNumber value")] }) ∧
    isoParse "2025-01-01T00:00:00.500Z" = some 1735689600500 ∧
    toTimestamp isoParse "2025-01-01T00:00:00.500Z" = .fin (3471379201 / 2) ∧
    ¬ ∃ k : ℤ, (3471379201 / 2 : ℚ) = (k : ℚ) := by
  have hparse : isoParse "2025-01-01T00:00:00.500Z" = some 1735689600500 := by decide
  refine ⟨by decide, rfl, rfl, hparse, ?_, ?_⟩
  · rw [toTimestamp_some isoParse _ _ hparse]
    have := roundDouble_near (((1735689600500 : ℤ) : ℚ) / 1000) 30 7280009834135552
      (by norm_num) (by norm_num) (by norm_num) (by norm_num [abs_lt]) (by norm_num)
    rw [this]
    norm_num
  · rintro ⟨k, hk⟩
    have h2 : (3471379201 : ℚ) = 2 * (k : ℚ) := by linarith
    have h3 : (3471379201 : ℤ) = 2 * k := by exact_mod_cast h2
    omega

/-! ## Expiry as derived by `ProjectCard` -/

theorem digitChar_value (k : ℕ) (h : k < 10) :
    (Nat.digitChar k).toNat - 48 = k ∧ (Nat.digitChar k).isDigit = true := by
  interval_cases k <;> exact ⟨by decide, by decide⟩

/-- The digits printed for a number spell that number. -/
theorem toDigitsCore_value (fuel n : ℕ) (ds : List Char) (h : n < fuel) :
    digitsValue (Nat.toDigitsCore 10 fuel n ds) = n * 10 ^ ds.length + digitsValue ds := by
  induction fuel generalizing n ds with
  | zero => omega
  | succ fuel ih =>
    have hd := (digitChar_value (n % 10) (Nat.mod_lt n (by norm_num))).1
    unfold Nat.toDigitsCore
    simp only
    split_ifs with h0
    · rw [digitsValue_cons, hd]
      have : n % 10 = n := by omega
      rw [this]
    · rw [ih (n / 10) _ (by omega), digitsValue_cons, hd, List.length_cons, pow_succ]
      have hn : n = 10 * (n / 10) + n % 10 := (Nat.div_add_mod n 10).symm
      conv_rhs => rw [hn]
      ring

theorem toDigitsCore_digits (fuel n : ℕ) (ds : List Char) (h : ds.all Char.isDigit = true) :
    (Nat.toDigitsCore 10 fuel n ds).all Char.isDigit = true := by
  induction fuel generalizing n ds with
  | zero => simpa [Nat.toDigitsCore] using h
  | succ fuel ih =>
    have hd := (digitChar_value (n % 10) (Nat.mod_lt n (by norm_num))).2
    have hcons : (Nat.digitChar (n % 10) :: ds).all Char.isDigit = true := by
      simp only [List.all_cons, Bool.and_eq_true]
      exact ⟨hd, h⟩
    unfold Nat.toDigitsCore
    simp only
    split_ifs with h0
    · exact hcons
    · exact ih (n / 10) _ hcons

theorem toDigitsCore_ne_nil (fuel n : ℕ) (ds : List Char) (h : ds ≠ [] ∨ 0 < fuel) :
    Nat.toDigitsCore 10 fuel n ds ≠ [] := by
  induction fuel generalizing n ds with
  | zero =>
    rcases h with h | h
    · simpa [Nat.toDigitsCore] using h
    · omega
  | succ fuel ih =>
    unfold Nat.toDigitsCore
    simp only
    split_ifs with h0
    · simp
    · exact ih (n / 10) _ (Or.inl (by simp))

theorem repr_value (n : ℕ) : digitsValue (Nat.repr n).data = n := by
  have := toDigitsCore_value (n + 1) n [] (by omega)
  simpa [Nat.repr, Nat.toDigits, List.asString, digitsValue] using this

theorem repr_digits (n : ℕ) : (Nat.repr n).data.all Char.isDigit = true := by
  have := toDigitsCore_digits (n + 1) n [] (by simp)
  simpa [Nat.repr, Nat.toDigits, List.asString] using this

theorem repr_ne_nil (n : ℕ) : (Nat.repr n).data ≠ [] := by
  have := toDigitsCore_ne_nil (n + 1) n [] (Or.inr (by omega))
  simpa [Nat.repr, Nat.toDigits, List.asString] using this

theorem digit_not_foreign (c : Char) (h : c.isDigit = true) : foreignLetter c = false := by
  have halpha : c.isAlpha = false := by
    simp only [Char.isDigit, Bool.and_eq_true, decide_eq_true_eq] at h
    have h2 : c.val.toNat ≤ 57 := UInt32.le_def.1 h.2
    simp only [Char.isAlpha, Char.isUpper, Char.isLower, Bool.or_eq_false_iff,
      Bool.and_eq_false_iff, decide_eq_false_iff_not, not_le]
    constructor
    · left
      intro hc
      have h65 : (65 : UInt32).toNat ≤ c.val.toNat := UInt32.le_def.1 hc
      have : (65 : UInt32).toNat = 65 := by decide
      omega
    · left
      intro hc
      have h97 : (97 : UInt32).toNat ≤ c.val.toNat := UInt32.le_def.1 hc
      have : (97 : UInt32).toNat = 97 := by decide
      omega
  unfold foreignLetter
  rw [halpha]
  rfl

theorem numberToString_nat (shortest : ℚ → String) (n : ℕ) (hn : n < 2 ^ 53) :
    numberToString shortest (.fin n) = Nat.repr n := by
  have hlt : |(n : ℚ)| < 2 ^ 53 := by
    rw [abs_of_nonneg (by positivity)]
    exact_mod_cast hn
  unfold numberToString
  simp only [Rat.den_natCast, Rat.num_natCast, true_and]
  rw [if_pos hlt]
  simp [showNumber]

/-- Appending `'000'` to the digits of a safe non-negative integer and reading the text back
as a Number gives the same Number as multiplying by 1000. -/
theorem threshold_of_nat (shortest : ℚ → String) (other : String → JSNumber) (n : ℕ)
    (hn : n < 2 ^ 53) :
    stringToNumber other (numberToString shortest (.fin n) ++ "000")
      = (JSNumber.fin n).mul (.fin 1000) := by
  have hdata : (numberToString shortest (.fin n) ++ "000").data
      = (Nat.repr n).data ++ ['0', '0', '0'] := by
    rw [numberToString_nat shortest n hn]
    rfl
  have hall : ((Nat.repr n).data ++ ['0', '0', '0']).all Char.isDigit = true := by
    rw [List.all_append, repr_digits]
    rfl
  have hforeign : ((Nat.repr n).data ++ ['0', '0', '0']).any foreignLetter = false := by
    rw [List.any_eq_false]
    intro c hc
    have := List.all_eq_true.1 hall c hc
    rw [digit_not_foreign c this]
    simp
  have hhead : ¬ ((Nat.repr n).data ++ ['0', '0', '0']).head? = some '-' := by
    intro hc
    rcases hrepr : (Nat.repr n).data with _ | ⟨c, rest⟩
    · exact repr_ne_nil n hrepr
    · rw [hrepr] at hc hall
      simp only [List.cons_append, List.head?_cons, Option.some.injEq] at hc
      simp only [List.cons_append, List.all_cons, Bool.and_eq_true] at hall
      exact digit_ne_minus c hall.1 hc
  have hne : (((Nat.repr n).data ++ ['0', '0', '0']).isEmpty) = false := by
    cases (Nat.repr n).data <;> rfl
  have hvalue : digitsValue ((Nat.repr n).data ++ ['0', '0', '0']) = n * 1000 := by
    have hz : digitsValue ['0', '0', '0'] = 0 := by decide
    rw [digitsValue_append, repr_value, hz]
    simp
  unfold stringToNumber
  simp only [hdata, hforeign, Bool.false_eq_true, if_false, decide_eq_false hhead, hne,
    Bool.not_false, hall, Bool.and_self, if_true, hvalue]
  simp [JSNumber.mul]

theorem getTime_nat (n : ℕ) (h : n ≤ 8640000000000000) :
    getTime (timeClip (.fin n)) = .fin n := by
  have h1 : |(n : ℚ)| ≤ 8640000000000000 := by
    rw [abs_of_nonneg (by positivity)]
    exact_mod_cast h
  have h2 : (0 : ℚ) ≤ n := by positivity
  simp only [timeClip]
  rw [if_pos h1, if_pos h2, Int.floor_natCast]
  simp [getTime]

/-- C13 (amended). The normalizer stores no expired flag.  For a raw project whose `expiresAt`
is at most `8.64 * 10^15` (the range of `Date`) and whose other integer-like fields are below
`2^53`, `structuredProjects` keeps `expiresAt` numerically equal to the ledger's value in
seconds, and `ProjectCard` derives expiry at render time as
`now_ms > Number(expiresAt + '000')`, which equals `now_ms > expiresAt * 1000`: the threshold
is the very Number from which the normalizer's date label `toDate(expiresAt * 1000)` is
computed (and is exactly `expiresAt * 1000` when that product is at most `2^53`). -/
theorem expiry_instant (tz : ℤ → ℤ) (raw : RawProject)
    (hraw : raw.id < 2 ^ 53 ∧ raw.timestamp < 2 ^ 53 ∧ raw.backers < 2 ^ 53)
    (hrange : raw.expiresAt ≤ 8640000000000000) :
    ∃ P, structuredProjects tz [raw] = .ok [P] ∧
      P.get "expired" = .undefined ∧
      P.expiresAt = .fin raw.expiresAt ∧
      P.date = toDate tz ((JSNumber.fin raw.expiresAt).mul (.fin 1000)) ∧
      (∀ shortest other now,
        expired shortest other now P
          = (JSNumber.fin now).gt ((JSNumber.fin raw.expiresAt).mul (.fin 1000))) ∧
      (raw.expiresAt * 1000 ≤ 2 ^ 53 →
        (JSNumber.fin raw.expiresAt).mul (.fin 1000) = .fin ((raw.expiresAt * 1000 : ℕ) : ℚ)) := by
  have hexp : raw.expiresAt < 2 ^ 53 := by
    have : (8640000000000000 : ℕ) < 2 ^ 53 := by norm_num
    omega
  have hnorm := normalizeProject_ok tz raw ⟨hraw.1, hraw.2.1, hexp, hraw.2.2⟩
  refine ⟨_, structuredProjects_singleton tz raw _ hnorm, ?_, ?_, rfl, ?_, ?_⟩
  · simp [Project.get]
  · exact getTime_nat raw.expiresAt hrange
  · intro shortest other now
    unfold expired
    simp only
    rw [getTime_nat raw.expiresAt hrange, threshold_of_nat shortest other raw.expiresAt hexp]
  · intro hprod
    have := roundDouble_natCast_exact (raw.expiresAt * 1000) hprod
    simp only [JSNumber.mul]
    push_cast at this ⊢
    exact this

/-- C13 (witness): the scenario project, expiring at 1735689600 seconds. -/
theorem expiry_instant_witness :
    (scenarioProject.id < 2 ^ 53 ∧ scenarioProject.timestamp < 2 ^ 53 ∧
      scenarioProject.backers < 2 ^ 53) ∧
    scenarioProject.expiresAt ≤ 8640000000000000 ∧
    ∃ P, structuredProjects utc [scenarioProject] = .ok [P] ∧
      P.get "expired" = .undefined ∧
      P.expiresAt = .fin scenarioProject.expiresAt ∧
      P.date = toDate utc ((JSNumber.fin scenarioProject.expiresAt).mul (.fin 1000)) ∧
      (∀ shortest other now,
        expired shortest other now P
          = (JSNumber.fin now).gt ((JSNumber.fin scenarioProject.expiresAt).mul (.fin 1000))) ∧
      (scenarioProject.expiresAt * 1000 ≤ 2 ^ 53 →
        (JSNumber.fin scenarioProject.expiresAt).mul (.fin 1000)
          = .fin ((scenarioProject.expiresAt * 1000 : ℕ) : ℚ)) :=
  ⟨by decide, by decide, expiry_instant utc scenarioProject (by decide) (by decide)⟩

/-- C13 (counterexample): the ledger value `9 * 10^15` seconds is a safe integer, yet
`structuredProjects` returns `expiresAt` as NaN for it, not a number equal to the ledger's
value; `ProjectCard` then reads `Number('NaN000')`, which is NaN, so its comparison with the
current time (here 2025-01-01T00:00:00Z) is false. -/
theorem distant_expiry_is_nan :
    distantProject.expiresAt = 9000000000000000 ∧
    (∃ P, structuredProjects utc [distantProject] = .ok [P] ∧
      P.expiresAt = .nan ∧
      expired (fun _ => "") (fun _ => .nan) 1735689600000 P = false) ∧
    ¬ ∃ P, structuredProjects utc [distantProject] = .ok [P] ∧
      P.expiresAt = .fin 9000000000000000 := by
  have hclip : timeClip (.fin ((9000000000000000 : ℕ) : ℚ)) = none := by
    norm_num [timeClip, abs_le]
  have hnorm := normalizeProject_ok utc distantProject (by decide)
  have hsingle := structuredProjects_singleton utc distantProject _ hnorm
  have hexp : getTime (timeClip (.fin (distantProject.expiresAt : ℚ))) = .nan := by
    rw [show distantProject.expiresAt = 9000000000000000 from rfl, hclip]
    rfl
  refine ⟨rfl, ⟨_, hsingle, hexp, ?_⟩, ?_⟩
  · unfold expired
    simp only
    rw [hexp]
    rfl
  · rintro ⟨P, hP, hfin⟩
    rw [hsingle] at hP
    injection hP with hP
    injection hP with hP
    subst hP
    simp only at hfin
    rw [hexp] at hfin
    cases hfin

end Ventures
